import Mathlib

/-!
# Verification of the easy-dag execution engine

A shallow embedding of the easy-dag Go library (package `easydag`):
the worker pool (`pool.go`), the builder and cycle detector
(`dag_builder.go`), the Mermaid serializer (`dag.go`), the pure parts of
the runtime node (`runtime_node.go`: `DoIfRunning`, `GetCost`,
`processWithRetry`), and a small-step transition system for one run of a
DAG (`start` / `run` / `onDepDone` / `success` / `fail` and the timeout
watcher of `processWithTimeout`).

Durations and instants are modelled as `Int` nanoseconds; Go `nil`
values are `Option.none`; machine-level atomics become single events of
the step relation, whose granularity matches the atomic operations of
the source (each status change is one compare-and-swap).
-/

namespace EasyDag

/-- Modelled from the spec: the status constants of the runtime node
(`Waiting`, `Running`, `Succeeded`, `Failed`) are declared in a file of
the repository that is not part of the provided sources; the spec (§4.4)
fixes their values as Waiting=0, Running=1, Succeeded=2, Failed=3. -/
def Waiting : Nat := 0

/-- Status value `Running` (= 1, spec §4.4). -/
def Running : Nat := 1

/-- Status value `Succeeded` (= 2, spec §4.4). -/
def Succeeded : Nat := 2

/-- Status value `Failed` (= 3, spec §4.4). -/
def Failed : Nat := 3

/-- A non-nil Go `error` value.  `timeout` is the `TimeoutErr` sentinel;
`user k` stands for an opaque non-nil error returned by a user
processor (or synthesized from a panic). -/
inductive GoError where
  | timeout
  | user (code : Nat)
deriving DecidableEq, Repr

/-- The `TimeoutErr` sentinel (`dag.go`: `const TimeoutErr = strErr("timeout")`). -/
def TimeoutErr : GoError := GoError.timeout

/-- `node.go`: `func maxUint(a, b uint) uint`. -/
def maxUint (a b : Nat) : Nat := if a > b then a else b

/-- `node.go`: `func minDuration(a, b time.Duration) time.Duration`. -/
def minDuration (a b : Int) : Int := if a < b then a else b

/-- Go's `time.Duration` maximum (`math.MaxInt64` nanoseconds); Go's
`Time.Sub` saturates to this value on overflow. -/
def maxGoDuration : Int := 9223372036854775807

/-- Go's `time.Duration` minimum (`math.MinInt64` nanoseconds). -/
def minGoDuration : Int := -9223372036854775808

/-- Saturation of `Time.Sub` (and hence `time.Since`) to the
`time.Duration` range, as implemented in Go's time package. -/
def satDuration (d : Int) : Int :=
  if d > maxGoDuration then maxGoDuration
  else if d < minGoDuration then minGoDuration
  else d

/-- `runtime_node.go` `DoIfRunning`: under the read side of `node.mu`,
check `node.status.Load() != Running`; if so return `false` without
calling `fn`, otherwise call `fn` and return `true`.  The state mutated
by `fn` is abstracted as a value of type `α`. -/
def DoIfRunning {α : Type} (status : Nat) (fn : α → α) (s : α) : α × Bool :=
  if status ≠ Running then (s, false) else (fn s, true)

/-- `runtime_node.go` `GetCost`: if the `done` channel is closed, return
the stored `cost`; otherwise return `time.Since(node.begin)`.  `begin`
is the node's begin instant in nanoseconds on an absolute axis whose
origin is Go's zero `time.Time` (so a never-assigned `begin` is `0`). -/
def GetCost (doneClosed : Bool) (cost : Int) (now begin : Int) : Int :=
  if doneClosed then cost else satDuration (now - begin)

/-! ## The retry loop (`processWithRetry`)

The loop of `processWithRetry` interacts with its environment at three
points: the `DoIfRunning` status check before each attempt, the
processor invocation, and the status re-check before a backoff sleep.
These are modelled by oracles: `checkStatus k` / `backoffStatus k` give
the value of `node.status.Load()` observed at the check whose current
`attempts` value is `k`, and `procResult k` gives the (possibly nil)
error returned by the `k`-th processor invocation. -/

/-- The mutable locals of `processWithRetry`: the node's `attempts`
counter, a ghost count of processor invocations, and the loop-carried
`err` variable. -/
structure RetrySt where
  attempts : Nat
  procCalls : Nat
  err : Option GoError
deriving DecidableEq, Repr

/-- One transcription of the `for node.attempts < maxAttempts` loop of
`processWithRetry`.  Each iteration: a `DoIfRunning` guarded increment
of `attempts` (return on failure), the processor call recording its
result into `err`, return on nil `err`, and — when another attempt
remains and a backoff function is set — a status re-check (return when
no longer `Running`) before the backoff sleep. -/
def retryLoop (maxA : Nat) (procResult : Nat → Option GoError)
    (checkStatus : Nat → Nat) (backoffStatus : Nat → Nat)
    (hasBackoff : Bool) (s : RetrySt) : RetrySt :=
  if _h : s.attempts < maxA then
    if checkStatus s.attempts ≠ Running then s
    else
      let s1 : RetrySt := { s with attempts := s.attempts + 1 }
      let s2 : RetrySt := { s1 with procCalls := s1.procCalls + 1, err := procResult s1.attempts }
      match s2.err with
      | none => s2
      | some _ =>
        if s2.attempts ≠ maxA ∧ hasBackoff then
          if backoffStatus s2.attempts ≠ Running then s2
          else retryLoop maxA procResult checkStatus backoffStatus hasBackoff s2
        else retryLoop maxA procResult checkStatus backoffStatus hasBackoff s2
  else s
termination_by maxA - s.attempts

/-- `processWithRetry`, from the loop's entry point: `maxAttempts :=
maxUint(1, node.maxAttempts)` and the locals start at zero / nil. -/
def processWithRetry (nodeMaxAttempts : Nat) (procResult : Nat → Option GoError)
    (checkStatus : Nat → Nat) (backoffStatus : Nat → Nat)
    (hasBackoff : Bool) : RetrySt :=
  retryLoop (maxUint 1 nodeMaxAttempts) procResult checkStatus backoffStatus
    hasBackoff { attempts := 0, procCalls := 0, err := none }

/-! ## The worker pool (`pool.go`)

The pool's linked list of `task` nodes is represented by the list of the
`f` fields of the nodes from `head` to `tail` inclusive; `NewPool`
creates a single self-linked sentinel node whose `f` field is nil
(`Option.none`).  `Submit` either spawns a worker (handing it the thunk
directly) or appends a new tail node; a worker that finishes its thunk
either dequeues (`f = p.head.f; p.head = p.head.next; p.len--`) or
decrements the worker count and exits.  Thunks are abstracted by an
arbitrary type `τ`. -/

/-- The fields of `Pool` observable in the model: the `f` fields of the
linked-list nodes from `head` to `tail`, plus `len`, `maxWorkers` and
`workers`. -/
structure PoolSt (τ : Type) where
  tasks : List (Option τ)
  len : Nat
  maxWorkers : Nat
  workers : Nat
deriving DecidableEq, Repr

/-- `pool.go` `NewPool`: a fresh pool holding one sentinel task node
with a nil `f`. -/
def NewPool (τ : Type) (maxWorkers : Nat) : PoolSt τ :=
  { tasks := [none], len := 0, maxWorkers := maxWorkers, workers := 0 }

/-- `pool.go` `Submit`: a nil thunk is ignored; if `workers <
maxWorkers` the count is incremented and the thunk is handed to a fresh
worker (second component); otherwise a new tail node holding the thunk
is linked in and `len` is incremented. -/
def Submit {τ : Type} (p : PoolSt τ) (f : Option τ) : PoolSt τ × Option τ :=
  match f with
  | none => (p, none)
  | some g =>
    if p.workers < p.maxWorkers then
      ({ p with workers := p.workers + 1 }, some g)
    else
      ({ p with tasks := p.tasks ++ [some g], len := p.len + 1 }, none)

/-- The step a worker takes in `pool.go` `work` after finishing its
current thunk: under the mutex, if `len > 0` it takes `f = p.head.f`,
advances `p.head = p.head.next` and decrements `len`, and goes on to
call the taken `f`; otherwise it decrements `workers` and exits.  The
second component is `some g` when the worker will next call the
(possibly nil) function value `g`, and `none` when the worker exits. -/
def workDequeue {τ : Type} (p : PoolSt τ) : PoolSt τ × Option (Option τ) :=
  if p.len > 0 then
    match p.tasks with
    | [] => (p, none)
    | h :: t => ({ p with tasks := t, len := p.len - 1 }, some h)
  else
    ({ p with workers := p.workers - 1 }, none)

/-! ## The builder and cycle detector (`dag_builder.go`)

A user node set is a table `defs : List UserNode`; a `*Node[T]` pointer
is an index into that table (object identity becomes index equality, as
the spec's design notes prescribe for ports) and a nil pointer is
`Option.none`.  `add` interns nodes depth-first exactly as the Go code
does, assigning metadata indices in first-visit order, wiring
`children` / `weakChildren` on the dependency side and counting
`depCnt` on the dependent side.  The mutually recursive structure of
`add` (which folds over the dependency lists, recursing into each) is
made total with a fuel argument bounding the interning depth; fuel
exhaustion returns the state unchanged and can never produce an
error. -/

/-- A user `Node[T]` definition (`node.go`): its diagnostic name and its
strong and weak dependency lists (entries are possibly-nil pointers,
i.e. possibly-`none` indices into the definition table). -/
structure UserNode where
  name : String
  deps : List (Option Nat)
  weakDeps : List (Option Nat)
deriving DecidableEq, Repr

/-- `nodeMetadata` (`node.go`), restricted to the fields the builder
writes: name (defaulted to "noname"), adjacency lists of metadata
indices, and the dependency count. -/
structure NodeMeta where
  name : String
  children : List Nat
  weakChildren : List Nat
  depCnt : Nat
deriving DecidableEq, Repr

/-- `node.go` `newNodeMetadata`: copy the name, defaulting the empty
string to "noname"; adjacency starts empty. -/
def newNodeMetadata (nd : UserNode) : NodeMeta :=
  { name := if nd.name = "" then "noname" else nd.name,
    children := [], weakChildren := [], depCnt := 0 }

/-- The mutable state of `dagBuilder`: the interned metadata table and
the `index` map from user-node identity to metadata index (an
association list, newest binding first). -/
structure BuilderSt where
  metaNodes : Array NodeMeta
  index : List (Nat × Nat)
deriving Repr

/-- Record the edge `depIdx -> selfIdx` on both sides, as the dependency
loops of `dagBuilder.add` do: push `selfIdx` into the dependency's
`children` (strong) or `weakChildren` (weak) list and increment the
dependent's `depCnt`. -/
def wireDep (st : BuilderSt) (depIdx selfIdx : Nat) (strong : Bool) : BuilderSt :=
  let ms := st.metaNodes.modify depIdx (fun m =>
    if strong then { m with children := m.children ++ [selfIdx] }
    else { m with weakChildren := m.weakChildren ++ [selfIdx] })
  { st with metaNodes := ms.modify selfIdx (fun m => { m with depCnt := m.depCnt + 1 }) }

/-- The `for _, dep := range node.Dependencies` (resp. weak) loop inside
`dagBuilder.add`: skip nil entries, intern each dependency (with the
interning function passed as `step`), and wire the edge on both sides. -/
def addDepList (step : BuilderSt → Nat → BuilderSt × Nat) (selfIdx : Nat)
    (strong : Bool) : BuilderSt → List (Option Nat) → BuilderSt
  | st, [] => st
  | st, none :: rest => addDepList step selfIdx strong st rest
  | st, some dep :: rest =>
    addDepList step selfIdx strong
      (wireDep (step st dep).1 (step st dep).2 selfIdx strong) rest

/-- `dagBuilder.add`: if the node is already interned return its index;
otherwise assign the next index, record it in the map, append a fresh
metadata record, and walk the strong then the weak dependency lists.
The `fuel` argument bounds the interning depth (each nested call interns
at least one new node first, so `defs.length + 1` is always enough). -/
def addNode (defs : List UserNode) : Nat → BuilderSt → Nat → BuilderSt × Nat
  | 0, st, uid =>
    match st.index.lookup uid with
    | some idx => (st, idx)
    | none => (st, 0)
  | fuel + 1, st, uid =>
    match st.index.lookup uid with
    | some idx => (st, idx)
    | none =>
      (addDepList (fun s d => addNode defs fuel s d) st.metaNodes.size false
        (addDepList (fun s d => addNode defs fuel s d) st.metaNodes.size true
          { metaNodes := st.metaNodes.push
              (newNodeMetadata (defs.getD uid { name := "", deps := [], weakDeps := [] })),
            index := (uid, st.metaNodes.size) :: st.index }
          (defs.getD uid { name := "", deps := [], weakDeps := [] }).deps)
        (defs.getD uid { name := "", deps := [], weakDeps := [] }).weakDeps,
       st.metaNodes.size)

/-- The default (zero) metadata record, used for out-of-range table
reads (which never occur on the indices the builder produces). -/
def emptyMeta : NodeMeta :=
  { name := "", children := [], weakChildren := [], depCnt := 0 }

instance : Inhabited NodeMeta := ⟨emptyMeta⟩

/-- The name of the metadata node at index `i`. -/
def nameAt (ms : Array NodeMeta) (i : Nat) : String := (ms.getD i emptyMeta).name

/-- The `for cur := b.next[idx]; cur != idx; cur = b.next[cur]` walk of
`detectCycle`'s error branch, collecting the names on the cycle path
strictly between the two occurrences of `idx`.  `fuel` bounds the walk
(in the source the walk always closes back at `idx`; `ms.size` steps
always suffice there). -/
def cycleWalk (ms : Array NodeMeta) (next : Array Int) (fuel : Nat) (cur : Int)
    (idx : Nat) : List String :=
  match fuel with
  | 0 => []
  | fuel + 1 =>
    if cur = (idx : Int) then []
    else nameAt ms cur.toNat :: cycleWalk ms next fuel (next.getD cur.toNat (-1)) idx

/-- The error string built by the first branch of `detectCycle`: the
collected cycle `[name idx, …path names…, name idx]` is reversed and
joined with `" -> "` after the literal prefix. -/
def cycleErrMsg (ms : Array NodeMeta) (next : Array Int) (idx : Nat) : String :=
  let cycle := (nameAt ms idx :: cycleWalk ms next ms.size (next.getD idx (-1)) idx)
    ++ [nameAt ms idx]
  "cyclic dependency detected: " ++ String.intercalate " -> " cycle.reverse

/-- The cycle-detection state of `dagBuilder`: the `visited` and `next`
arrays (`next[i] = -1` means `i` is not on the DFS stack). -/
structure CycleSt where
  visited : Array Bool
  next : Array Int
deriving Repr

/-- One of the two child loops of `detectCycle`: for each child, set
`next[idx] = child`, recurse (the recursive call is passed as `step`),
and propagate any error. -/
def detectChildren (step : CycleSt → Nat → Except String CycleSt) (idx : Nat) :
    CycleSt → List Nat → Except String CycleSt
  | st, [] => .ok st
  | st, c :: rest =>
    match step { st with next := st.next.setD idx (Int.ofNat c) } c with
    | .error e => .error e
    | .ok st2 => detectChildren step idx st2 rest

/-- `dagBuilder.detectCycle`: if `next[idx] != -1` the node is on the
DFS stack and the cycle error is reported; if already `visited`, return;
otherwise mark visited, walk the strong then the weak child lists
(setting `next[idx]` to each child before recursing), and finally clear
`next[idx]`.  `fuel` bounds the recursion depth; it is consumed only
when a new node is marked visited, so `ms.size + 1` always suffices, and
exhaustion returns success without emitting any error. -/
def detectCycle (ms : Array NodeMeta) : Nat → CycleSt → Nat → Except String CycleSt
  | 0, st, idx =>
    if st.next.getD idx (-1) ≠ -1 then .error (cycleErrMsg ms st.next idx)
    else if st.visited.getD idx false then .ok st
    else .ok st
  | fuel + 1, st, idx =>
    if st.next.getD idx (-1) ≠ -1 then .error (cycleErrMsg ms st.next idx)
    else if st.visited.getD idx false then .ok st
    else
      match detectChildren (fun s c => detectCycle ms fuel s c) idx
          { st with visited := st.visited.setD idx true }
          (ms.getD idx emptyMeta).children with
      | .error e => .error e
      | .ok st2 =>
        match detectChildren (fun s c => detectCycle ms fuel s c) idx st2
            (ms.getD idx emptyMeta).weakChildren with
        | .error e => .error e
        | .ok st3 => .ok { st3 with next := st3.next.setD idx (-1) }

/-- The `for idx := range b.metaNodes { detectCycle(idx) }` loop of
`dagBuilder.build`, threading the detection state and propagating the
first error. -/
def detectAll (ms : Array NodeMeta) : CycleSt → List Nat → Except String CycleSt
  | st, [] => .ok st
  | st, i :: rest =>
    match detectCycle ms (ms.size + 1) st i with
    | .error e => .error e
    | .ok st2 => detectAll ms st2 rest

/-- The frozen `DAG[T]` (`dag.go`): the metadata table and the root
indices (`depCnt == 0`). -/
structure DAGModel where
  metaNodes : Array NodeMeta
  rootNodes : List Nat
deriving Repr

/-- The builder state after `NewDAG`'s loop over the input leaves:
intern every non-nil leaf (dependencies are interned recursively by
`addNode`). -/
def buildSt (defs : List UserNode) (leaves : List (Option Nat)) : BuilderSt :=
  leaves.foldl (fun st o =>
    match o with
    | none => st
    | some uid => (addNode defs (defs.length + 1) st uid).1)
    { metaNodes := #[], index := [] }

/-- `dagBuilder.build` composed with `NewDAG`: intern every non-nil
input leaf, initialize `visited` to `false` and `next` to `-1`, run
cycle detection from every index, and on success collect the roots in
index order. -/
def build (defs : List UserNode) (leaves : List (Option Nat)) :
    Except String DAGModel :=
  match detectAll (buildSt defs leaves).metaNodes
      { visited := Array.mkArray (buildSt defs leaves).metaNodes.size false,
        next := Array.mkArray (buildSt defs leaves).metaNodes.size (-1) }
      (List.range (buildSt defs leaves).metaNodes.size) with
  | .error e => .error e
  | .ok _ =>
    .ok { metaNodes := (buildSt defs leaves).metaNodes,
          rootNodes := (List.range (buildSt defs leaves).metaNodes.size).filter
            (fun i => ((buildSt defs leaves).metaNodes.getD i emptyMeta).depCnt = 0) }

/-! ## The Mermaid serializer (`dag.go`) -/

/-- The sequence of strings `WriteAsMermaid` passes to
`writer.WriteString`: the header, one line per metadata node in index
order, then — per node, in index order — one line per strong child
followed by one line per weak child. -/
def WriteAsMermaid (dag : DAGModel) : List String :=
  "graph TB\n" ::
  (dag.metaNodes.toList.enum.map (fun p =>
      "    " ++ toString p.1 ++ "(" ++ p.2.name ++ ")\n"))
  ++ (dag.metaNodes.toList.enum.map (fun p =>
      p.2.children.map (fun c => "    " ++ toString p.1 ++ " --> " ++ toString c ++ "\n")
      ++ p.2.weakChildren.map (fun c =>
        "    " ++ toString p.1 ++ " -.-> " ++ toString c ++ "\n"))).flatten

/-- `DAG.ToMermaid`: `WriteAsMermaid` into a `strings.Builder`, i.e. the
concatenation of the written strings. -/
def ToMermaid (dag : DAGModel) : String := String.join (WriteAsMermaid dag)

/-! ## One run of a DAG: the small-step scheduler

`DAG.RunWithPool` creates one `runtimeNode` per metadata node, fires the
roots, and lets the workers interleave.  The interleaving is modelled by
a step relation over a vector of per-node states.  Each event is one of
the atomic operations of `runtime_node.go` (a compare-and-swap on the
status, an atomic `doneDepCnt.Add`, one retry-loop iteration, the
timeout watcher's flip, one `onDepDone` call of the child-notification
loops).  Scheduling nondeterminism (which goroutine moves, what the
user processor returns, whether the graph-wide deadline had already
passed when a worker starts) is captured by free interleaving plus
per-run oracles in `RunGraph`. -/

/-- The frozen metadata of a graph of `n` nodes together with the
per-run oracles: `expired i` is the value of
`time.Now().After(ctx.begin.Add(totalTimeout))` observed when node `i`'s
worker enters `run`, and `procResult i k` is the error returned by the
`k`-th invocation of `i`'s processor (nil = success). -/
structure RunGraph (n : Nat) where
  children : Fin n → List (Fin n)
  weakChildren : Fin n → List (Fin n)
  depCnt : Fin n → Nat
  hasProcessor : Fin n → Bool
  maxAttempts : Fin n → Nat
  localTimeout : Fin n → Int
  totalTimeout : Fin n → Int
  expired : Fin n → Bool
  procResult : Fin n → Nat → Option GoError

/-- Where node `i`'s worker stands in `run`: not dispatched
(`idle`), dispatched but not yet past the branch at the top of `run`
(`entered`), inside `processWithRetry` (`retrying`), in the
child-notification loops with `sent` already notified and `pending`
remaining (`notifying`), or done (`finished`, remembering the full
notified list). -/
inductive Phase (n : Nat) where
  | idle
  | entered
  | retrying
  | notifying (sent pending : List (Fin n))
  | finished (sent : List (Fin n))
deriving DecidableEq

/-- The observable state of one `runtimeNode` during a run: the
`status` atomic, the `doneDepCnt` atomic, the `attempts` counter, a
ghost count of processor invocations, the `err` field, the loop-local
`err` variable of `processWithRetry`, the worker phase, and whether
`begin` was assigned and `done` closed. -/
structure NodeRt (n : Nat) where
  status : Nat
  doneDep : Nat
  attempts : Nat
  procCalls : Nat
  errField : Option GoError
  retryErr : Option GoError
  phase : Phase n
  beginSet : Bool
  doneClosed : Bool
deriving DecidableEq

/-- The state of one run: one `NodeRt` per metadata index. -/
def RState (n : Nat) : Type := Fin n → NodeRt n

variable {n : Nat}

/-- `runtimeNode.success`: `CompareAndSwap(Running, Succeeded)`; a
failed swap changes nothing (the `onSuccess` hook is an opaque user
callback). -/
def succCAS (st : RState n) (i : Fin n) : RState n :=
  if (st i).status = Running then
    Function.update st i { st i with status := Succeeded }
  else st

/-- `runtimeNode.fail`: `CompareAndSwap(Running, Failed)`, and only on a
successful swap record the (non-nil) error into `node.err`. -/
def failCAS (st : RState n) (i : Fin n) (e : GoError) : RState n :=
  if (st i).status = Running then
    Function.update st i { st i with status := Failed, errField := some e }
  else st

/-- `runtimeNode.start`'s successful path: status becomes `Running` and
`run` is dispatched (phase `entered`). -/
def startUpd (st : RState n) (i : Fin n) : RState n :=
  Function.update st i { st i with status := Running, phase := Phase.entered }

/-- The condition of the first branch of `run`:
`node.totalTimeout > 0 && time.Now().After(ctx.begin.Add(node.totalTimeout))`. -/
def expiredAtEntry (g : RunGraph n) (i : Fin n) : Bool :=
  decide (g.totalTimeout i > 0) && g.expired i

/-- Whether `run` reaches `processWithTimeout`, i.e. whether a watcher
goroutine races the node's deadline: a processor exists, the first
branch was not taken, and not both timeouts are unset. -/
def needsWatcher (g : RunGraph n) (i : Fin n) : Bool :=
  g.hasProcessor i && !(expiredAtEntry g i)
    && !(decide (g.localTimeout i ≤ 0) && decide (g.totalTimeout i ≤ 0))

/-- The child-notification sequence at the bottom of `run`: strong
children only when the status (terminal by then) is `Succeeded`,
followed by the weak children unconditionally. -/
def notifyList (g : RunGraph n) (st : RState n) (i : Fin n) : List (Fin n) :=
  (if (st i).status = Succeeded then g.children i else []) ++ g.weakChildren i

/-- The branch at the top of `run`: an already-expired graph deadline
fails the node without touching the processor; an absent processor is an
immediate success; otherwise `processWithRetry` begins (with or without
a watcher), which first assigns `begin`.  In the first two cases the
worker moves straight to the child-notification loops. -/
def bodyUpd (g : RunGraph n) (st : RState n) (i : Fin n) : RState n :=
  if expiredAtEntry g i then
    Function.update (failCAS st i TimeoutErr) i
      { failCAS st i TimeoutErr i with
        phase := Phase.notifying [] (notifyList g (failCAS st i TimeoutErr) i) }
  else if g.hasProcessor i = false then
    Function.update (succCAS st i) i
      { succCAS st i i with phase := Phase.notifying [] (notifyList g (succCAS st i) i) }
  else
    Function.update st i { st i with phase := Phase.retrying, beginSet := true }

/-- One iteration of the retry loop that got past the `DoIfRunning`
gate: `attempts` is incremented under the interlock, the processor is
invoked, and its result lands in the loop-local `err`. -/
def attemptUpd (g : RunGraph n) (st : RState n) (i : Fin n) : RState n :=
  Function.update st i { st i with attempts := (st i).attempts + 1, procCalls := (st i).procCalls + 1, retryErr := g.procResult i ((st i).attempts + 1) }

/-- The deadline branch of `processWithTimeout`'s `select`: under the
write side of `node.mu`, `node.fail(params, TimeoutErr)`. -/
def watcherUpd (st : RState n) (i : Fin n) : RState n := failCAS st i TimeoutErr

/-- The first half of `processWithRetry`'s deferred epilogue: store the
cost, close `done`, then `success` on a nil loop-local `err` and
`fail(err)` otherwise. -/
def finishCAS (st : RState n) (i : Fin n) : RState n :=
  match (st i).retryErr with
  | none => succCAS (Function.update st i { st i with doneClosed := true }) i
  | some e => failCAS (Function.update st i { st i with doneClosed := true }) i e

/-- The deferred epilogue of `processWithRetry` followed by the worker
moving to the child-notification loops of `run`. -/
def finishRetryUpd (g : RunGraph n) (st : RState n) (i : Fin n) : RState n :=
  Function.update (finishCAS st i) i
    { finishCAS st i i with phase := Phase.notifying [] (notifyList g (finishCAS st i) i) }

/-- The `doneDepCnt.Add(1)` of `onDepDone`. -/
def bumpDep (st : RState n) (c : Fin n) : RState n :=
  Function.update st c { st c with doneDep := (st c).doneDep + 1 }

/-- `runtimeNode.onDepDone`: `doneDepCnt.Add(1)`, and when the new value
equals `depCnt`, `start` (whose compare-and-swap fires the node only
from `Waiting`). -/
def onDepDoneUpd (g : RunGraph n) (st : RState n) (c : Fin n) : RState n :=
  if (bumpDep st c c).doneDep = g.depCnt c then
    (if (bumpDep st c c).status = Waiting then startUpd (bumpDep st c) c else bumpDep st c)
  else bumpDep st c

/-- One step of a child-notification loop of `run`: call
`child.onDepDone` for the next pending child and advance the loop. -/
def notifyUpd (g : RunGraph n) (st : RState n) (i c : Fin n)
    (sent rest : List (Fin n)) : RState n :=
  Function.update (onDepDoneUpd g st c) i
    { onDepDoneUpd g st c i with phase := Phase.notifying (sent ++ [c]) rest }

/-- The end of `run`: both notification loops are exhausted and the
worker returns (`ctx.wg.Done()`). -/
def finishNotifyUpd (st : RState n) (i : Fin n) (sent : List (Fin n)) : RState n :=
  Function.update st i { st i with phase := Phase.finished sent }

/-- One atomic event of a run. -/
inductive Step (g : RunGraph n) : RState n → RState n → Prop where
  | fireRoot (st : RState n) (i : Fin n) (hdep : g.depCnt i = 0)
      (hst : (st i).status = Waiting) (hph : (st i).phase = Phase.idle) :
      Step g st (startUpd st i)
  | runBody (st : RState n) (i : Fin n) (hph : (st i).phase = Phase.entered) :
      Step g st (bodyUpd g st i)
  | attempt (st : RState n) (i : Fin n) (hph : (st i).phase = Phase.retrying)
      (hrun : (st i).status = Running)
      (hlt : (st i).attempts < maxUint 1 (g.maxAttempts i)) :
      Step g st (attemptUpd g st i)
  | watcherFire (st : RState n) (i : Fin n) (hph : (st i).phase = Phase.retrying)
      (hw : needsWatcher g i = true) :
      Step g st (watcherUpd st i)
  | finishRetry (st : RState n) (i : Fin n) (hph : (st i).phase = Phase.retrying)
      (hexit : ((st i).retryErr = none ∧ 0 < (st i).attempts)
        ∨ (st i).attempts = maxUint 1 (g.maxAttempts i)
        ∨ (st i).status ≠ Running) :
      Step g st (finishRetryUpd g st i)
  | notifyChild (st : RState n) (i c : Fin n) (sent rest : List (Fin n))
      (hph : (st i).phase = Phase.notifying sent (c :: rest)) :
      Step g st (notifyUpd g st i c sent rest)
  | notifyDone (st : RState n) (i : Fin n) (sent : List (Fin n))
      (hph : (st i).phase = Phase.notifying sent []) :
      Step g st (finishNotifyUpd st i sent)

/-- A fresh `runtimeNode` as built by `newRuntimeNode`: `Waiting`, zero
counters, nil errors, undispatched. -/
def initNode (n : Nat) : NodeRt n :=
  { status := Waiting, doneDep := 0, attempts := 0, procCalls := 0,
    errField := none, retryErr := none, phase := Phase.idle,
    beginSet := false, doneClosed := false }

/-- The state `RunWithPool` builds before firing the roots. -/
def initState (n : Nat) : RState n := fun _ => initNode n

/-- The states one run can reach. -/
def Reachable (g : RunGraph n) (st : RState n) : Prop :=
  Relation.ReflTransGen (Step g) (initState n) st

/-- All workers have returned: `ctx.wg.Wait()` is past and results are
being collected.  A node is either never dispatched or fully done. -/
def Quiescent (st : RState n) : Prop :=
  ∀ i, (st i).phase = Phase.idle ∨ ∃ sent, (st i).phase = Phase.finished sent

/-- Consistency of the frozen adjacency (spec invariant 1, established
by the builder): each node's `depCnt` equals the number of edges
pointing at it, counted with multiplicity over all parents' `children`
and `weakChildren` lists. -/
def Wf (g : RunGraph n) : Prop :=
  ∀ c, g.depCnt c = ∑ p : Fin n, ((g.children p).count c + (g.weakChildren p).count c)

/-- The notifications node `p` has already delivered. -/
def sentList (st : RState n) (p : Fin n) : List (Fin n) :=
  match (st p).phase with
  | Phase.idle => []
  | Phase.entered => []
  | Phase.retrying => []
  | Phase.notifying s _ => s
  | Phase.finished s => s

/-! ## Run invariants -/

/-- The inductive invariant of one run. -/
structure Inv (g : RunGraph n) (st : RState n) : Prop where
  idleWaiting : ∀ i, (st i).phase = Phase.idle → (st i).status = Waiting
  waitingIdle : ∀ i, (st i).status = Waiting → (st i).phase = Phase.idle
  idleZero : ∀ i, (st i).phase = Phase.idle →
    (st i).attempts = 0 ∧ (st i).procCalls = 0 ∧ (st i).retryErr = none ∧
    (st i).beginSet = false ∧ (st i).doneClosed = false
  enteredInv : ∀ i, (st i).phase = Phase.entered →
    (st i).status = Running ∧ (st i).attempts = 0 ∧ (st i).procCalls = 0 ∧
    (st i).retryErr = none ∧ (st i).beginSet = false ∧ (st i).doneClosed = false
  retryingInv : ∀ i, (st i).phase = Phase.retrying →
    ((st i).status = Running ∨ (st i).status = Failed) ∧
    g.hasProcessor i = true ∧ (st i).beginSet = true ∧ (st i).doneClosed = false
  notifyingInv : ∀ i s p, (st i).phase = Phase.notifying s p →
    ((st i).status = Succeeded ∨ (st i).status = Failed) ∧ s ++ p = notifyList g st i
  finishedInv : ∀ i s, (st i).phase = Phase.finished s →
    ((st i).status = Succeeded ∨ (st i).status = Failed) ∧ s = notifyList g st i
  runningPhase : ∀ i, (st i).status = Running →
    (st i).phase = Phase.entered ∨ (st i).phase = Phase.retrying
  statusRange : ∀ i, (st i).status = Waiting ∨ (st i).status = Running ∨
    (st i).status = Succeeded ∨ (st i).status = Failed
  errIff : ∀ i, (st i).errField ≠ none ↔ (st i).status = Failed
  attemptsEq : ∀ i, (st i).attempts = (st i).procCalls
  attemptsLe : ∀ i, (st i).attempts ≤ maxUint 1 (g.maxAttempts i)
  doneDepSum : ∀ c, (st c).doneDep = ∑ p : Fin n, (sentList st p).count c
  startedDep : ∀ i, (st i).phase ≠ Phase.idle →
    g.depCnt i = 0 ∨ g.depCnt i ≤ (st i).doneDep
  expiredZero : ∀ i, expiredAtEntry g i = true →
    (st i).attempts = 0 ∧ (st i).procCalls = 0 ∧ (st i).beginSet = false ∧
    (st i).doneClosed = false ∧ (st i).phase ≠ Phase.retrying
  expiredFailed : ∀ i, expiredAtEntry g i = true → (st i).phase ≠ Phase.idle →
    (st i).phase ≠ Phase.entered →
    (st i).status = Failed ∧ (st i).errField = some TimeoutErr

/-- The invariant holds initially. -/
theorem inv_init (g : RunGraph n) : Inv g (initState n) := by
  constructor <;> intro i <;>
    simp [initState, initNode, sentList, Waiting, Running, Succeeded, Failed]

theorem succCAS_apply_ne {st : RState n} {i j : Fin n} (h : j ≠ i) :
    succCAS st i j = st j := by
  unfold succCAS; split
  · exact Function.update_noteq h _ _
  · rfl

theorem failCAS_apply_ne {st : RState n} {i j : Fin n} {e : GoError} (h : j ≠ i) :
    failCAS st i e j = st j := by
  unfold failCAS; split
  · exact Function.update_noteq h _ _
  · rfl

theorem succCAS_status {s : RState n} {i j : Fin n} :
    (succCAS s i j).status = (s j).status ∨
      ((s j).status = Running ∧ (succCAS s i j).status = Succeeded) := by
  by_cases hj : j = i
  · subst hj; unfold succCAS; split
    · right; exact ⟨by assumption, by simp⟩
    · left; rfl
  · left; rw [succCAS_apply_ne hj]

theorem failCAS_status {s : RState n} {i j : Fin n} {e : GoError} :
    (failCAS s i e j).status = (s j).status ∨
      ((s j).status = Running ∧ (failCAS s i e j).status = Failed) := by
  by_cases hj : j = i
  · subst hj; unfold failCAS; split
    · right; exact ⟨by assumption, by simp⟩
    · left; rfl
  · left; rw [failCAS_apply_ne hj]

theorem phase_update_status (st : RState n) (i j : Fin n) (ph : Phase n) :
    (Function.update st i { st i with phase := ph } j).status = (st j).status := by
  by_cases hj : j = i
  · subst hj; simp
  · rw [Function.update_noteq hj]

theorem bumpDep_apply_ne {s : RState n} {c j : Fin n} (h : j ≠ c) :
    bumpDep s c j = s j := by
  unfold bumpDep; exact Function.update_noteq h _ _

theorem bumpDep_status (s : RState n) (c j : Fin n) :
    (bumpDep s c j).status = (s j).status := by
  by_cases hj : j = c
  · rw [hj]; unfold bumpDep; simp
  · rw [bumpDep_apply_ne hj]

theorem onDepDoneUpd_status {g : RunGraph n} {s : RState n} {c j : Fin n} :
    (onDepDoneUpd g s c j).status = (s j).status ∨
      ((s j).status = Waiting ∧ (onDepDoneUpd g s c j).status = Running) := by
  unfold onDepDoneUpd
  split
  · split
    · next h2 =>
      by_cases hj : j = c
      · right
        refine ⟨?_, ?_⟩
        · rw [hj]; rw [← bumpDep_status s c c]; exact h2
        · rw [hj]; unfold startUpd; simp
      · left; unfold startUpd; rw [Function.update_noteq hj]; exact bumpDep_status s c j
    · left; exact bumpDep_status s c j
  · left; exact bumpDep_status s c j

/-- Shape of every status change: the only transitions any event makes
are the compare-and-swaps Waiting→Running, Running→Succeeded and
Running→Failed. -/
theorem step_status (g : RunGraph n) {st st' : RState n} (h : Step g st st') (j : Fin n) :
    (st' j).status = (st j).status ∨
    ((st j).status = Waiting ∧ (st' j).status = Running) ∨
    ((st j).status = Running ∧ ((st' j).status = Succeeded ∨ (st' j).status = Failed)) := by
  cases h with
  | fireRoot i hdep hst hph =>
    by_cases hj : j = i
    · subst hj; exact Or.inr (Or.inl ⟨hst, by simp [startUpd]⟩)
    · exact Or.inl (by simp [startUpd, Function.update_noteq hj])
  | runBody i hph =>
    unfold bodyUpd
    split
    · rw [phase_update_status]
      rcases failCAS_status (s := st) (i := i) (j := j) (e := TimeoutErr) with h1 | h1
      · exact Or.inl h1
      · exact Or.inr (Or.inr ⟨h1.1, Or.inr h1.2⟩)
    · split
      · rw [phase_update_status]
        rcases succCAS_status (s := st) (i := i) (j := j) with h1 | h1
        · exact Or.inl h1
        · exact Or.inr (Or.inr ⟨h1.1, Or.inl h1.2⟩)
      · by_cases hj : j = i
        · subst hj; exact Or.inl (by simp)
        · exact Or.inl (by rw [Function.update_noteq hj])
  | attempt i hph hrun hlt =>
    by_cases hj : j = i
    · subst hj; exact Or.inl (by simp [attemptUpd])
    · exact Or.inl (by simp [attemptUpd, Function.update_noteq hj])
  | watcherFire i hph hw =>
    unfold watcherUpd
    rcases failCAS_status (s := st) (i := i) (j := j) (e := TimeoutErr) with h1 | h1
    · exact Or.inl h1
    · exact Or.inr (Or.inr ⟨h1.1, Or.inr h1.2⟩)
  | finishRetry i hph hexit =>
    unfold finishRetryUpd
    rw [phase_update_status]
    unfold finishCAS
    set sD := Function.update st i { st i with doneClosed := true } with hsD
    have hbase : ∀ k : Fin n, (sD k).status = (st k).status := by
      intro k; by_cases hk : k = i
      · subst hk; rw [hsD]; simp
      · rw [hsD, Function.update_noteq hk]
    cases hre : (st i).retryErr with
    | none =>
      simp only [hre]
      rcases succCAS_status (s := sD) (i := i) (j := j) with h1 | h1
      · exact Or.inl (by rw [h1, hbase])
      · exact Or.inr (Or.inr ⟨by rw [← hbase j]; exact h1.1, Or.inl h1.2⟩)
    | some e =>
      simp only [hre]
      rcases failCAS_status (s := sD) (i := i) (j := j) (e := e) with h1 | h1
      · exact Or.inl (by rw [h1, hbase])
      · exact Or.inr (Or.inr ⟨by rw [← hbase j]; exact h1.1, Or.inr h1.2⟩)
  | notifyChild i c sent rest hph =>
    unfold notifyUpd
    rw [phase_update_status]
    rcases onDepDoneUpd_status (g := g) (s := st) (c := c) (j := j) with h1 | h1
    · exact Or.inl h1
    · exact Or.inr (Or.inl h1)
  | notifyDone i sent hph =>
    unfold finishNotifyUpd
    rw [phase_update_status]
    exact Or.inl rfl

/-- A `Succeeded` status is stable: no later event ever changes it. -/
theorem star_succ_stable (g : RunGraph n) {st st' : RState n}
    (h : Relation.ReflTransGen (Step g) st st') (i : Fin n)
    (hs : (st i).status = Succeeded) : (st' i).status = Succeeded := by
  induction h with
  | refl => exact hs
  | tail _ hbc ih =>
    rcases step_status g hbc i with h1 | h1 | h1
    · rw [h1]; exact ih
    · rw [ih] at h1; exact absurd h1.1 (by decide)
    · rw [ih] at h1; exact absurd h1.1 (by decide)

/-- A `Failed` status is stable: no later event ever changes it. -/
theorem star_failed_stable (g : RunGraph n) {st st' : RState n}
    (h : Relation.ReflTransGen (Step g) st st') (i : Fin n)
    (hs : (st i).status = Failed) : (st' i).status = Failed := by
  induction h with
  | refl => exact hs
  | tail _ hbc ih =>
    rcases step_status g hbc i with h1 | h1 | h1
    · rw [h1]; exact ih
    · rw [ih] at h1; exact absurd h1.1 (by decide)
    · rw [ih] at h1; exact absurd h1.1 (by decide)

/-- `notifyList` only reads the node's own record. -/
theorem notifyList_congr {g : RunGraph n} {s s' : RState n} {k : Fin n}
    (h : s' k = s k) : notifyList g s' k = notifyList g s k := by
  unfold notifyList; rw [h]

/-- `sentList` only reads the node's own record. -/
theorem sentList_congr {s s' : RState n} {k : Fin n}
    (h : s' k = s k) : sentList s' k = sentList s k := by
  unfold sentList; rw [h]

theorem inv_fireRoot {g : RunGraph n} {st : RState n} (hI : Inv g st) (i : Fin n)
    (hdep : g.depCnt i = 0) (hst : (st i).status = Waiting)
    (hph : (st i).phase = Phase.idle) : Inv g (startUpd st i) := by
  have hfr : ∀ k, k ≠ i → startUpd st i k = st k :=
    fun k hk => Function.update_noteq hk _ _
  have hstat : (startUpd st i i).status = Running := by simp [startUpd]
  have hpha : (startUpd st i i).phase = Phase.entered := by simp [startUpd]
  have hatt : (startUpd st i i).attempts = (st i).attempts := by simp [startUpd]
  have hprc : (startUpd st i i).procCalls = (st i).procCalls := by simp [startUpd]
  have hrer : (startUpd st i i).retryErr = (st i).retryErr := by simp [startUpd]
  have hbeg : (startUpd st i i).beginSet = (st i).beginSet := by simp [startUpd]
  have hdcl : (startUpd st i i).doneClosed = (st i).doneClosed := by simp [startUpd]
  have herr2 : (startUpd st i i).errField = (st i).errField := by simp [startUpd]
  have hdd2 : (startUpd st i i).doneDep = (st i).doneDep := by simp [startUpd]
  rcases hI.idleZero i hph with ⟨hz1, hz2, hz3, hz4, hz5⟩
  have herrN : (st i).errField = none := by
    by_contra hcon
    have := (hI.errIff i).mp hcon
    rw [hst] at this; exact absurd this (by decide)
  constructor
  · intro k hk
    by_cases hki : k = i
    · rw [hki, hpha] at hk; exact absurd hk (by simp)
    · rw [hfr k hki] at hk ⊢; exact hI.idleWaiting k hk
  · intro k hk
    by_cases hki : k = i
    · rw [hki, hstat] at hk; exact absurd hk (by decide)
    · rw [hfr k hki] at hk ⊢; exact hI.waitingIdle k hk
  · intro k hk
    by_cases hki : k = i
    · rw [hki, hpha] at hk; exact absurd hk (by simp)
    · rw [hfr k hki] at hk ⊢; exact hI.idleZero k hk
  · intro k hk
    by_cases hki : k = i
    · rw [hki, hstat, hatt, hprc, hrer, hbeg, hdcl]
      exact ⟨rfl, hz1, hz2, hz3, hz4, hz5⟩
    · rw [hfr k hki] at hk ⊢; exact hI.enteredInv k hk
  · intro k hk
    by_cases hki : k = i
    · rw [hki, hpha] at hk; exact absurd hk (by simp)
    · rw [hfr k hki] at hk ⊢; exact hI.retryingInv k hk
  · intro k s p hk
    by_cases hki : k = i
    · rw [hki, hpha] at hk; exact absurd hk (by simp)
    · rw [hfr k hki] at hk
      rw [notifyList_congr (hfr k hki), hfr k hki]
      exact hI.notifyingInv k s p hk
  · intro k s hk
    by_cases hki : k = i
    · rw [hki, hpha] at hk; exact absurd hk (by simp)
    · rw [hfr k hki] at hk
      rw [notifyList_congr (hfr k hki), hfr k hki]
      exact hI.finishedInv k s hk
  · intro k hk
    by_cases hki : k = i
    · rw [hki]; exact Or.inl hpha
    · rw [hfr k hki] at hk ⊢; exact hI.runningPhase k hk
  · intro k
    by_cases hki : k = i
    · rw [hki, hstat]; exact Or.inr (Or.inl rfl)
    · rw [hfr k hki]; exact hI.statusRange k
  · intro k
    by_cases hki : k = i
    · rw [hki, herr2, hstat]
      constructor
      · intro hcon; exact absurd herrN hcon
      · intro hcon; exact absurd hcon (by decide)
    · rw [hfr k hki]; exact hI.errIff k
  · intro k
    by_cases hki : k = i
    · rw [hki, hatt, hprc]; exact hI.attemptsEq i
    · rw [hfr k hki]; exact hI.attemptsEq k
  · intro k
    by_cases hki : k = i
    · rw [hki, hatt]; exact hI.attemptsLe i
    · rw [hfr k hki]; exact hI.attemptsLe k
  · intro c
    have hsent : ∀ p, sentList (startUpd st i) p = sentList st p := by
      intro p
      by_cases hpi : p = i
      · rw [hpi]; simp only [sentList, hpha, hph]
      · exact sentList_congr (hfr p hpi)
    have hdd : (startUpd st i c).doneDep = (st c).doneDep := by
      by_cases hci : c = i
      · rw [hci, hdd2]
      · rw [hfr c hci]
    rw [hdd, hI.doneDepSum c]
    exact Finset.sum_congr rfl (fun p _ => by rw [hsent p])
  · intro k hk
    by_cases hki : k = i
    · rw [hki]; exact Or.inl hdep
    · rw [hfr k hki] at hk ⊢; exact hI.startedDep k hk
  · intro k hk
    by_cases hki : k = i
    · rw [hki] at hk
      rcases hI.expiredZero i hk with ⟨ha, hb, hc, hd, _⟩
      rw [hki, hatt, hprc, hbeg, hdcl, hpha]
      exact ⟨ha, hb, hc, hd, by simp⟩
    · rw [hfr k hki]; exact hI.expiredZero k hk
  · intro k hk hni hne
    by_cases hki : k = i
    · rw [hki, hpha] at hne; exact absurd rfl hne
    · rw [hfr k hki] at hni hne ⊢; exact hI.expiredFailed k hk hni hne

/-- `sentList` as a function of a single node record. -/
def sentOf (r : NodeRt n) : List (Fin n) :=
  match r.phase with
  | Phase.idle => []
  | Phase.entered => []
  | Phase.retrying => []
  | Phase.notifying s _ => s
  | Phase.finished s => s

/-- `notifyList` as a function of a single node record. -/
def notifyListOf (g : RunGraph n) (i : Fin n) (r : NodeRt n) : List (Fin n) :=
  (if r.status = Succeeded then g.children i else []) ++ g.weakChildren i

theorem sentList_eq (s : RState n) (p : Fin n) : sentList s p = sentOf (s p) := rfl

theorem notifyList_eq (g : RunGraph n) (s : RState n) (k : Fin n) :
    notifyList g s k = notifyListOf g k (s k) := rfl

/-- Preservation of the invariant under any event that replaces node
`i`'s record (leaving its `doneDep` and delivered notifications alone)
and touches nothing else. -/
theorem inv_update_generic {g : RunGraph n} {st : RState n} (hI : Inv g st)
    (i : Fin n) (r : NodeRt n)
    (hidle : r.phase = Phase.idle → r.status = Waiting ∧ r.attempts = 0 ∧
      r.procCalls = 0 ∧ r.retryErr = none ∧ r.beginSet = false ∧ r.doneClosed = false)
    (hwait : r.status = Waiting → r.phase = Phase.idle)
    (hent : r.phase = Phase.entered → r.status = Running ∧ r.attempts = 0 ∧
      r.procCalls = 0 ∧ r.retryErr = none ∧ r.beginSet = false ∧ r.doneClosed = false)
    (hret : r.phase = Phase.retrying → (r.status = Running ∨ r.status = Failed) ∧
      g.hasProcessor i = true ∧ r.beginSet = true ∧ r.doneClosed = false)
    (hnot : ∀ s p, r.phase = Phase.notifying s p →
      (r.status = Succeeded ∨ r.status = Failed) ∧ s ++ p = notifyListOf g i r)
    (hfin : ∀ s, r.phase = Phase.finished s →
      (r.status = Succeeded ∨ r.status = Failed) ∧ s = notifyListOf g i r)
    (hrun : r.status = Running → r.phase = Phase.entered ∨ r.phase = Phase.retrying)
    (hrange : r.status = Waiting ∨ r.status = Running ∨ r.status = Succeeded ∨
      r.status = Failed)
    (herr : r.errField ≠ none ↔ r.status = Failed)
    (haeq : r.attempts = r.procCalls)
    (hale : r.attempts ≤ maxUint 1 (g.maxAttempts i))
    (hdd : r.doneDep = (st i).doneDep)
    (hsent : sentOf r = sentList st i)
    (hsd : r.phase ≠ Phase.idle → g.depCnt i = 0 ∨ g.depCnt i ≤ r.doneDep)
    (hexz : expiredAtEntry g i = true → r.attempts = 0 ∧ r.procCalls = 0 ∧
      r.beginSet = false ∧ r.doneClosed = false ∧ r.phase ≠ Phase.retrying)
    (hexf : expiredAtEntry g i = true → r.phase ≠ Phase.idle →
      r.phase ≠ Phase.entered → r.status = Failed ∧ r.errField = some TimeoutErr) :
    Inv g (Function.update st i r) := by
  have hfr : ∀ k, k ≠ i → Function.update st i r k = st k :=
    fun k hk => Function.update_noteq hk _ _
  have hsf : Function.update st i r i = r := Function.update_same i r st
  constructor
  · intro k hk
    by_cases hki : k = i
    · rw [hki, hsf] at hk ⊢; exact (hidle hk).1
    · rw [hfr k hki] at hk ⊢; exact hI.idleWaiting k hk
  · intro k hk
    by_cases hki : k = i
    · rw [hki, hsf] at hk ⊢; exact hwait hk
    · rw [hfr k hki] at hk ⊢; exact hI.waitingIdle k hk
  · intro k hk
    by_cases hki : k = i
    · rw [hki, hsf] at hk ⊢; exact (hidle hk).2
    · rw [hfr k hki] at hk ⊢; exact hI.idleZero k hk
  · intro k hk
    by_cases hki : k = i
    · rw [hki, hsf] at hk ⊢; exact hent hk
    · rw [hfr k hki] at hk ⊢; exact hI.enteredInv k hk
  · intro k hk
    by_cases hki : k = i
    · rw [hki] at hk ⊢; rw [hsf] at hk ⊢; exact hret hk
    · rw [hfr k hki] at hk ⊢; exact hI.retryingInv k hk
  · intro k s p hk
    by_cases hki : k = i
    · rw [hki, hsf] at hk; rw [hki, notifyList_eq, hsf]; exact hnot s p hk
    · rw [hfr k hki] at hk
      rw [notifyList_congr (hfr k hki), hfr k hki]
      exact hI.notifyingInv k s p hk
  · intro k s hk
    by_cases hki : k = i
    · rw [hki, hsf] at hk; rw [hki, notifyList_eq, hsf]; exact hfin s hk
    · rw [hfr k hki] at hk
      rw [notifyList_congr (hfr k hki), hfr k hki]
      exact hI.finishedInv k s hk
  · intro k hk
    by_cases hki : k = i
    · rw [hki, hsf] at hk ⊢; exact hrun hk
    · rw [hfr k hki] at hk ⊢; exact hI.runningPhase k hk
  · intro k
    by_cases hki : k = i
    · rw [hki, hsf]; exact hrange
    · rw [hfr k hki]; exact hI.statusRange k
  · intro k
    by_cases hki : k = i
    · rw [hki, hsf]; exact herr
    · rw [hfr k hki]; exact hI.errIff k
  · intro k
    by_cases hki : k = i
    · rw [hki, hsf]; exact haeq
    · rw [hfr k hki]; exact hI.attemptsEq k
  · intro k
    by_cases hki : k = i
    · rw [hki, hsf]; exact hale
    · rw [hfr k hki]; exact hI.attemptsLe k
  · intro c
    have hsent2 : ∀ p, sentList (Function.update st i r) p = sentList st p := by
      intro p
      by_cases hpi : p = i
      · rw [hpi, sentList_eq, hsf]; exact hsent
      · exact sentList_congr (hfr p hpi)
    have hdd2 : (Function.update st i r c).doneDep = (st c).doneDep := by
      by_cases hci : c = i
      · rw [hci, hsf, hdd]
      · rw [hfr c hci]
    rw [hdd2, hI.doneDepSum c]
    exact Finset.sum_congr rfl (fun p _ => by rw [hsent2 p])
  · intro k hk
    by_cases hki : k = i
    · rw [hki] at hk ⊢; rw [hsf] at hk ⊢; exact hsd hk
    · rw [hfr k hki] at hk ⊢; exact hI.startedDep k hk
  · intro k hk
    by_cases hki : k = i
    · rw [hki, hsf]; rw [hki] at hk; exact hexz hk
    · rw [hfr k hki]; exact hI.expiredZero k hk
  · intro k hk hni hne
    by_cases hki : k = i
    · rw [hki, hsf] at hni hne ⊢; rw [hki] at hk; exact hexf hk hni hne
    · rw [hfr k hki] at hni hne ⊢; exact hI.expiredFailed k hk hni hne

theorem inv_attempt {g : RunGraph n} {st : RState n} (hI : Inv g st) (i : Fin n)
    (hph : (st i).phase = Phase.retrying) (hrun : (st i).status = Running)
    (hlt : (st i).attempts < maxUint 1 (g.maxAttempts i)) :
    Inv g (attemptUpd g st i) := by
  have hret0 := hI.retryingInv i hph
  have hnr : (st i).phase ≠ Phase.retrying → False := fun h => h hph
  refine inv_update_generic hI i _ ?_ ?_ ?_ ?_ ?_ ?_ ?_ ?_ ?_ ?_ ?_ ?_ ?_ ?_ ?_ ?_
  · intro h; exact absurd (hph.symm.trans h) (by simp)
  · intro h; exact absurd (hrun.symm.trans h) (by decide)
  · intro h; exact absurd (hph.symm.trans h) (by simp)
  · intro _; exact ⟨Or.inl hrun, hret0.2.1, hret0.2.2.1, hret0.2.2.2⟩
  · intro s p h; exact absurd (hph.symm.trans h) (by simp)
  · intro s h; exact absurd (hph.symm.trans h) (by simp)
  · intro _; exact Or.inr hph
  · exact hI.statusRange i
  · exact hI.errIff i
  · show (st i).attempts + 1 = (st i).procCalls + 1
    rw [hI.attemptsEq i]
  · exact hlt
  · rfl
  · show sentOf (st i) = sentList st i
    rfl
  · intro _; exact hI.startedDep i (by rw [hph]; simp)
  · intro hexp; exact absurd hph (hI.expiredZero i hexp).2.2.2.2
  · intro hexp _ _; exact absurd hph (hI.expiredZero i hexp).2.2.2.2

theorem inv_watcherFire {g : RunGraph n} {st : RState n} (hI : Inv g st) (i : Fin n)
    (hph : (st i).phase = Phase.retrying) : Inv g (watcherUpd st i) := by
  have hret0 := hI.retryingInv i hph
  unfold watcherUpd failCAS
  split
  · next hrun =>
    refine inv_update_generic hI i _ ?_ ?_ ?_ ?_ ?_ ?_ ?_ ?_ ?_ ?_ ?_ ?_ ?_ ?_ ?_ ?_
    · intro h; exact absurd (hph.symm.trans h) (by simp)
    · intro h; exact absurd (show Failed = Waiting from h) (by decide)
    · intro h; exact absurd (hph.symm.trans h) (by simp)
    · intro _; exact ⟨Or.inr rfl, hret0.2.1, hret0.2.2.1, hret0.2.2.2⟩
    · intro s p h; exact absurd (hph.symm.trans h) (by simp)
    · intro s h; exact absurd (hph.symm.trans h) (by simp)
    · intro h; exact absurd (show Failed = Running from h) (by decide)
    · exact Or.inr (Or.inr (Or.inr rfl))
    · constructor
      · intro _; rfl
      · intro _; simp
    · exact hI.attemptsEq i
    · exact hI.attemptsLe i
    · rfl
    · show sentOf (st i) = sentList st i
      rfl
    · intro _; exact hI.startedDep i (by rw [hph]; simp)
    · intro hexp; exact absurd hph (hI.expiredZero i hexp).2.2.2.2
    · intro hexp _ _; exact absurd hph (hI.expiredZero i hexp).2.2.2.2
  · exact hI

theorem inv_runBody {g : RunGraph n} {st : RState n} (hI : Inv g st) (i : Fin n)
    (hph : (st i).phase = Phase.entered) : Inv g (bodyUpd g st i) := by
  rcases hI.enteredInv i hph with ⟨hrun, hz1, hz2, hz3, hz4, hz5⟩
  have herrN : (st i).errField = none := by
    by_contra hcon
    have := (hI.errIff i).mp hcon
    rw [hrun] at this; exact absurd this (by decide)
  have hsd0 : g.depCnt i = 0 ∨ g.depCnt i ≤ (st i).doneDep :=
    hI.startedDep i (by rw [hph]; simp)
  unfold bodyUpd
  split
  · next hE =>
    have h1 : failCAS st i TimeoutErr =
        Function.update st i { st i with status := Failed, errField := some TimeoutErr } := by
      unfold failCAS; rw [if_pos hrun]
    rw [h1, Function.update_same, Function.update_idem]
    have h4 : notifyList g
        (Function.update st i { st i with status := Failed, errField := some TimeoutErr }) i =
        notifyListOf g i { st i with status := Failed, errField := some TimeoutErr } := by
      rw [notifyList_eq, Function.update_same]
    rw [h4]
    refine inv_update_generic hI i _ ?_ ?_ ?_ ?_ ?_ ?_ ?_ ?_ ?_ ?_ ?_ ?_ ?_ ?_ ?_ ?_
    · exact fun h => Phase.noConfusion h
    · exact fun h => absurd (show Failed = Waiting from h) (by decide)
    · exact fun h => Phase.noConfusion h
    · exact fun h => Phase.noConfusion h
    · intro s p h
      injection h with h1a h2a
      rw [← h1a, ← h2a]
      exact ⟨Or.inr rfl, List.nil_append _⟩
    · exact fun s h => Phase.noConfusion h
    · exact fun h => absurd (show Failed = Running from h) (by decide)
    · exact Or.inr (Or.inr (Or.inr rfl))
    · exact ⟨fun _ => rfl, fun _ => fun hcon => Option.noConfusion hcon⟩
    · exact hI.attemptsEq i
    · exact hI.attemptsLe i
    · rfl
    · simp [sentOf, sentList, hph]
    · intro _; exact hsd0
    · intro _; exact ⟨hz1, hz2, hz4, hz5, fun h => Phase.noConfusion h⟩
    · intro _ _ _; exact ⟨rfl, rfl⟩
  · split
    · next hE hP =>
      have h1 : succCAS st i = Function.update st i { st i with status := Succeeded } := by
        unfold succCAS; rw [if_pos hrun]
      rw [h1, Function.update_same, Function.update_idem]
      have h4 : notifyList g (Function.update st i { st i with status := Succeeded }) i =
          notifyListOf g i { st i with status := Succeeded } := by
        rw [notifyList_eq, Function.update_same]
      rw [h4]
      refine inv_update_generic hI i _ ?_ ?_ ?_ ?_ ?_ ?_ ?_ ?_ ?_ ?_ ?_ ?_ ?_ ?_ ?_ ?_
      · exact fun h => Phase.noConfusion h
      · exact fun h => absurd (show Succeeded = Waiting from h) (by decide)
      · exact fun h => Phase.noConfusion h
      · exact fun h => Phase.noConfusion h
      · intro s p h
        injection h with h1a h2a
        rw [← h1a, ← h2a]
        exact ⟨Or.inl rfl, List.nil_append _⟩
      · exact fun s h => Phase.noConfusion h
      · exact fun h => absurd (show Succeeded = Running from h) (by decide)
      · exact Or.inr (Or.inr (Or.inl rfl))
      · constructor
        · intro hcon; exact absurd herrN hcon
        · intro hcon; exact absurd (show Succeeded = Failed from hcon) (by decide)
      · exact hI.attemptsEq i
      · exact hI.attemptsLe i
      · rfl
      · simp [sentOf, sentList, hph]
      · intro _; exact hsd0
      · intro hexp; exact absurd hexp hE
      · intro hexp _ _; exact absurd hexp hE
    · next hE hP =>
      have hP2 : g.hasProcessor i = true := by
        cases hpc : g.hasProcessor i
        · exact absurd hpc hP
        · rfl
      refine inv_update_generic hI i _ ?_ ?_ ?_ ?_ ?_ ?_ ?_ ?_ ?_ ?_ ?_ ?_ ?_ ?_ ?_ ?_
      · exact fun h => Phase.noConfusion h
      · exact fun h => absurd (hrun.symm.trans h) (by decide)
      · exact fun h => Phase.noConfusion h
      · intro _; exact ⟨Or.inl hrun, hP2, rfl, hz5⟩
      · exact fun s p h => Phase.noConfusion h
      · exact fun s h => Phase.noConfusion h
      · intro _; exact Or.inr rfl
      · exact Or.inr (Or.inl hrun)
      · constructor
        · intro hcon; exact absurd herrN hcon
        · intro hcon; exact absurd (hrun.symm.trans hcon) (by decide)
      · exact hI.attemptsEq i
      · exact hI.attemptsLe i
      · rfl
      · simp [sentOf, sentList, hph]
      · intro _; exact hsd0
      · intro hexp; exact absurd hexp hE
      · intro hexp _ _; exact absurd hexp hE

theorem finishCAS_none {st : RState n} {i : Fin n} (h : (st i).retryErr = none) :
    finishCAS st i = succCAS (Function.update st i { st i with doneClosed := true }) i := by
  unfold finishCAS; rw [h]

theorem finishCAS_some {st : RState n} {i : Fin n} {e : GoError}
    (h : (st i).retryErr = some e) :
    finishCAS st i = failCAS (Function.update st i { st i with doneClosed := true }) i e := by
  unfold finishCAS; rw [h]

theorem inv_finishRetry {g : RunGraph n} {st : RState n} (hI : Inv g st) (i : Fin n)
    (hph : (st i).phase = Phase.retrying) : Inv g (finishRetryUpd g st i) := by
  have hret0 := hI.retryingInv i hph
  have hsd0 : g.depCnt i = 0 ∨ g.depCnt i ≤ (st i).doneDep :=
    hI.startedDep i (by rw [hph]; simp)
  unfold finishRetryUpd
  have hDi : Function.update st i { st i with doneClosed := true } i
      = { st i with doneClosed := true } := Function.update_same i _ st
  rcases hre : (st i).retryErr with _ | e
  all_goals by_cases hsr : (st i).status = Running
  · -- retryErr nil, CAS Running→Succeeded
    have herrN : (st i).errField = none := by
      by_contra hcon
      have := (hI.errIff i).mp hcon
      rw [hsr] at this; exact absurd this (by decide)
    have hcond : (Function.update st i { st i with doneClosed := true } i).status = Running := by
      rw [hDi]; exact hsr
    have hS : finishCAS st i =
        Function.update st i { st i with doneClosed := true, status := Succeeded } := by
      rw [finishCAS_none hre]
      unfold succCAS
      rw [if_pos hcond, hDi, Function.update_idem]
    rw [hS, Function.update_same, Function.update_idem]
    have h4 : notifyList g
        (Function.update st i { st i with doneClosed := true, status := Succeeded }) i =
        notifyListOf g i { st i with doneClosed := true, status := Succeeded } := by
      rw [notifyList_eq, Function.update_same]
    rw [h4]
    refine inv_update_generic hI i _ ?_ ?_ ?_ ?_ ?_ ?_ ?_ ?_ ?_ ?_ ?_ ?_ ?_ ?_ ?_ ?_
    · exact fun h => Phase.noConfusion h
    · exact fun h => absurd (show Succeeded = Waiting from h) (by decide)
    · exact fun h => Phase.noConfusion h
    · exact fun h => Phase.noConfusion h
    · intro s p h
      injection h with h1a h2a
      rw [← h1a, ← h2a]
      exact ⟨Or.inl rfl, List.nil_append _⟩
    · exact fun s h => Phase.noConfusion h
    · exact fun h => absurd (show Succeeded = Running from h) (by decide)
    · exact Or.inr (Or.inr (Or.inl rfl))
    · constructor
      · intro hcon; exact absurd herrN hcon
      · intro hcon; exact absurd (show Succeeded = Failed from hcon) (by decide)
    · exact hI.attemptsEq i
    · exact hI.attemptsLe i
    · rfl
    · simp [sentOf, sentList, hph]
    · intro _; exact hsd0
    · intro hexp; exact absurd hph (hI.expiredZero i hexp).2.2.2.2
    · intro hexp _ _; exact absurd hph (hI.expiredZero i hexp).2.2.2.2
  · -- retryErr nil, status already Failed (watcher won): success CAS is a no-op
    have hF : (st i).status = Failed := hret0.1.resolve_left hsr
    have hcond : ¬((Function.update st i { st i with doneClosed := true } i).status = Running) := by
      rw [hDi]; exact hsr
    have hS : finishCAS st i = Function.update st i { st i with doneClosed := true } := by
      rw [finishCAS_none hre]
      unfold succCAS
      rw [if_neg hcond]
    rw [hS, Function.update_same, Function.update_idem]
    have h4 : notifyList g (Function.update st i { st i with doneClosed := true }) i =
        notifyListOf g i { st i with doneClosed := true } := by
      rw [notifyList_eq, Function.update_same]
    rw [h4]
    refine inv_update_generic hI i _ ?_ ?_ ?_ ?_ ?_ ?_ ?_ ?_ ?_ ?_ ?_ ?_ ?_ ?_ ?_ ?_
    · exact fun h => Phase.noConfusion h
    · exact fun h => absurd (hF.symm.trans h) (by decide)
    · exact fun h => Phase.noConfusion h
    · exact fun h => Phase.noConfusion h
    · intro s p h
      injection h with h1a h2a
      rw [← h1a, ← h2a]
      exact ⟨Or.inr hF, List.nil_append _⟩
    · exact fun s h => Phase.noConfusion h
    · exact fun h => absurd (hF.symm.trans h) (by decide)
    · exact Or.inr (Or.inr (Or.inr hF))
    · exact ⟨fun _ => hF, fun _ => (hI.errIff i).mpr hF⟩
    · exact hI.attemptsEq i
    · exact hI.attemptsLe i
    · rfl
    · simp [sentOf, sentList, hph]
    · intro _; exact hsd0
    · intro hexp; exact absurd hph (hI.expiredZero i hexp).2.2.2.2
    · intro hexp _ _; exact absurd hph (hI.expiredZero i hexp).2.2.2.2
  · -- retryErr non-nil, CAS Running→Failed
    have hcond : (Function.update st i { st i with doneClosed := true } i).status = Running := by
      rw [hDi]; exact hsr
    have hS : finishCAS st i = Function.update st i
        { st i with doneClosed := true, status := Failed, errField := some e } := by
      rw [finishCAS_some hre]
      unfold failCAS
      rw [if_pos hcond, hDi, Function.update_idem]
    rw [hS, Function.update_same, Function.update_idem]
    have h4 : notifyList g (Function.update st i
        { st i with doneClosed := true, status := Failed, errField := some e }) i =
        notifyListOf g i { st i with doneClosed := true, status := Failed, errField := some e } := by
      rw [notifyList_eq, Function.update_same]
    rw [h4]
    refine inv_update_generic hI i _ ?_ ?_ ?_ ?_ ?_ ?_ ?_ ?_ ?_ ?_ ?_ ?_ ?_ ?_ ?_ ?_
    · exact fun h => Phase.noConfusion h
    · exact fun h => absurd (show Failed = Waiting from h) (by decide)
    · exact fun h => Phase.noConfusion h
    · exact fun h => Phase.noConfusion h
    · intro s p h
      injection h with h1a h2a
      rw [← h1a, ← h2a]
      exact ⟨Or.inr rfl, List.nil_append _⟩
    · exact fun s h => Phase.noConfusion h
    · exact fun h => absurd (show Failed = Running from h) (by decide)
    · exact Or.inr (Or.inr (Or.inr rfl))
    · exact ⟨fun _ => rfl, fun _ => fun hcon => Option.noConfusion hcon⟩
    · exact hI.attemptsEq i
    · exact hI.attemptsLe i
    · rfl
    · simp [sentOf, sentList, hph]
    · intro _; exact hsd0
    · intro hexp; exact absurd hph (hI.expiredZero i hexp).2.2.2.2
    · intro hexp _ _; exact absurd hph (hI.expiredZero i hexp).2.2.2.2
  · -- retryErr non-nil, status already Failed: fail CAS is a no-op
    have hF : (st i).status = Failed := hret0.1.resolve_left hsr
    have hcond : ¬((Function.update st i { st i with doneClosed := true } i).status = Running) := by
      rw [hDi]; exact hsr
    have hS : finishCAS st i = Function.update st i { st i with doneClosed := true } := by
      rw [finishCAS_some hre]
      unfold failCAS
      rw [if_neg hcond]
    rw [hS, Function.update_same, Function.update_idem]
    have h4 : notifyList g (Function.update st i { st i with doneClosed := true }) i =
        notifyListOf g i { st i with doneClosed := true } := by
      rw [notifyList_eq, Function.update_same]
    rw [h4]
    refine inv_update_generic hI i _ ?_ ?_ ?_ ?_ ?_ ?_ ?_ ?_ ?_ ?_ ?_ ?_ ?_ ?_ ?_ ?_
    · exact fun h => Phase.noConfusion h
    · exact fun h => absurd (hF.symm.trans h) (by decide)
    · exact fun h => Phase.noConfusion h
    · exact fun h => Phase.noConfusion h
    · intro s p h
      injection h with h1a h2a
      rw [← h1a, ← h2a]
      exact ⟨Or.inr hF, List.nil_append _⟩
    · exact fun s h => Phase.noConfusion h
    · exact fun h => absurd (hF.symm.trans h) (by decide)
    · exact Or.inr (Or.inr (Or.inr hF))
    · exact ⟨fun _ => hF, fun _ => (hI.errIff i).mpr hF⟩
    · exact hI.attemptsEq i
    · exact hI.attemptsLe i
    · rfl
    · simp [sentOf, sentList, hph]
    · intro _; exact hsd0
    · intro hexp; exact absurd hph (hI.expiredZero i hexp).2.2.2.2
    · intro hexp _ _; exact absurd hph (hI.expiredZero i hexp).2.2.2.2

theorem inv_notifyDone {g : RunGraph n} {st : RState n} (hI : Inv g st) (i : Fin n)
    (sent : List (Fin n)) (hph : (st i).phase = Phase.notifying sent []) :
    Inv g (finishNotifyUpd st i sent) := by
  obtain ⟨hterm, hlist⟩ := hI.notifyingInv i sent [] hph
  rw [List.append_nil] at hlist
  have hnw : ¬((st i).status = Waiting) := by
    rcases hterm with h2 | h2
    · rw [h2]; decide
    · rw [h2]; decide
  have hnr : ¬((st i).status = Running) := by
    rcases hterm with h2 | h2
    · rw [h2]; decide
    · rw [h2]; decide
  unfold finishNotifyUpd
  refine inv_update_generic hI i _ ?_ ?_ ?_ ?_ ?_ ?_ ?_ ?_ ?_ ?_ ?_ ?_ ?_ ?_ ?_ ?_
  · exact fun h => Phase.noConfusion h
  · exact fun h => absurd h hnw
  · exact fun h => Phase.noConfusion h
  · exact fun h => Phase.noConfusion h
  · exact fun s p h => Phase.noConfusion h
  · intro s h
    injection h with h1a
    rw [← h1a]
    exact ⟨hterm, hlist⟩
  · exact fun h => absurd h hnr
  · exact hI.statusRange i
  · exact hI.errIff i
  · exact hI.attemptsEq i
  · exact hI.attemptsLe i
  · rfl
  · simp [sentOf, sentList, hph]
  · intro _; exact hI.startedDep i (by rw [hph]; simp)
  · intro hexp
    rcases hI.expiredZero i hexp with ⟨ha, hb, hc, hd, _⟩
    exact ⟨ha, hb, hc, hd, fun h => Phase.noConfusion h⟩
  · intro hexp _ _
    exact hI.expiredFailed i hexp (by rw [hph]; simp) (by rw [hph]; simp)

theorem bumpDep_phase (s : RState n) (c j : Fin n) :
    (bumpDep s c j).phase = (s j).phase := by
  by_cases hj : j = c
  · rw [hj]; unfold bumpDep; simp
  · rw [bumpDep_apply_ne hj]

theorem bumpDep_attempts (s : RState n) (c j : Fin n) :
    (bumpDep s c j).attempts = (s j).attempts := by
  by_cases hj : j = c
  · rw [hj]; unfold bumpDep; simp
  · rw [bumpDep_apply_ne hj]

theorem bumpDep_procCalls (s : RState n) (c j : Fin n) :
    (bumpDep s c j).procCalls = (s j).procCalls := by
  by_cases hj : j = c
  · rw [hj]; unfold bumpDep; simp
  · rw [bumpDep_apply_ne hj]

theorem bumpDep_retryErr (s : RState n) (c j : Fin n) :
    (bumpDep s c j).retryErr = (s j).retryErr := by
  by_cases hj : j = c
  · rw [hj]; unfold bumpDep; simp
  · rw [bumpDep_apply_ne hj]

theorem bumpDep_beginSet (s : RState n) (c j : Fin n) :
    (bumpDep s c j).beginSet = (s j).beginSet := by
  by_cases hj : j = c
  · rw [hj]; unfold bumpDep; simp
  · rw [bumpDep_apply_ne hj]

theorem bumpDep_doneClosed (s : RState n) (c j : Fin n) :
    (bumpDep s c j).doneClosed = (s j).doneClosed := by
  by_cases hj : j = c
  · rw [hj]; unfold bumpDep; simp
  · rw [bumpDep_apply_ne hj]

theorem bumpDep_errField (s : RState n) (c j : Fin n) :
    (bumpDep s c j).errField = (s j).errField := by
  by_cases hj : j = c
  · rw [hj]; unfold bumpDep; simp
  · rw [bumpDep_apply_ne hj]

theorem bumpDep_doneDep (s : RState n) (c j : Fin n) :
    (bumpDep s c j).doneDep = if j = c then (s c).doneDep + 1 else (s j).doneDep := by
  by_cases hj : j = c
  · rw [if_pos hj, hj]; unfold bumpDep; simp
  · rw [if_neg hj, bumpDep_apply_ne hj]

theorem sentList_phase_congr {s s' : RState n} {p : Fin n}
    (h : (s' p).phase = (s p).phase) : sentList s' p = sentList s p := by
  unfold sentList; rw [h]

theorem inv_notifyChild_nostart {g : RunGraph n} {st : RState n} (hI : Inv g st)
    (i c : Fin n) (sent rest : List (Fin n))
    (hph : (st i).phase = Phase.notifying sent (c :: rest)) :
    Inv g (Function.update (bumpDep st c) i
      { bumpDep st c i with phase := Phase.notifying (sent ++ [c]) rest }) := by
  obtain ⟨hterm, hlist⟩ := hI.notifyingInv i sent (c :: rest) hph
  set s2 := Function.update (bumpDep st c) i
      { bumpDep st c i with phase := Phase.notifying (sent ++ [c]) rest } with hs2
  have hself : s2 i = { bumpDep st c i with phase := Phase.notifying (sent ++ [c]) rest } := by
    rw [hs2]; exact Function.update_same i _ _
  have hfr : ∀ k, k ≠ i → s2 k = bumpDep st c k := by
    intro k hk; rw [hs2]; exact Function.update_noteq hk _ _
  have hstat : ∀ k, (s2 k).status = (st k).status := by
    intro k; by_cases hki : k = i
    · rw [hki, hself]; exact bumpDep_status st c i
    · rw [hfr k hki]; exact bumpDep_status st c k
  have hpha : ∀ k, k ≠ i → (s2 k).phase = (st k).phase := by
    intro k hk; rw [hfr k hk]; exact bumpDep_phase st c k
  have hphaI : (s2 i).phase = Phase.notifying (sent ++ [c]) rest := by
    rw [hself]
  have hatt : ∀ k, (s2 k).attempts = (st k).attempts := by
    intro k; by_cases hki : k = i
    · rw [hki, hself]; exact bumpDep_attempts st c i
    · rw [hfr k hki]; exact bumpDep_attempts st c k
  have hprc : ∀ k, (s2 k).procCalls = (st k).procCalls := by
    intro k; by_cases hki : k = i
    · rw [hki, hself]; exact bumpDep_procCalls st c i
    · rw [hfr k hki]; exact bumpDep_procCalls st c k
  have hrer : ∀ k, (s2 k).retryErr = (st k).retryErr := by
    intro k; by_cases hki : k = i
    · rw [hki, hself]; exact bumpDep_retryErr st c i
    · rw [hfr k hki]; exact bumpDep_retryErr st c k
  have hbeg : ∀ k, (s2 k).beginSet = (st k).beginSet := by
    intro k; by_cases hki : k = i
    · rw [hki, hself]; exact bumpDep_beginSet st c i
    · rw [hfr k hki]; exact bumpDep_beginSet st c k
  have hdcl : ∀ k, (s2 k).doneClosed = (st k).doneClosed := by
    intro k; by_cases hki : k = i
    · rw [hki, hself]; exact bumpDep_doneClosed st c i
    · rw [hfr k hki]; exact bumpDep_doneClosed st c k
  have herrF : ∀ k, (s2 k).errField = (st k).errField := by
    intro k; by_cases hki : k = i
    · rw [hki, hself]; exact bumpDep_errField st c i
    · rw [hfr k hki]; exact bumpDep_errField st c k
  have hdone : ∀ k, (s2 k).doneDep = if k = c then (st c).doneDep + 1 else (st k).doneDep := by
    intro k; by_cases hki : k = i
    · rw [hki, hself]; exact bumpDep_doneDep st c i
    · rw [hfr k hki]; exact bumpDep_doneDep st c k
  have hnlk : ∀ k, notifyList g s2 k = notifyList g st k := by
    intro k; rw [notifyList_eq, notifyList_eq]
    unfold notifyListOf; rw [hstat k]
  have hsentne : ∀ p, p ≠ i → sentList s2 p = sentList st p :=
    fun p hp => sentList_phase_congr (hpha p hp)
  have hsentI : sentList s2 i = sent ++ [c] := by
    unfold sentList; rw [hphaI]
  have hsentI0 : sentList st i = sent := by
    unfold sentList; rw [hph]
  constructor
  · intro k hk
    by_cases hki : k = i
    · rw [hki, hphaI] at hk; exact absurd hk (by simp)
    · rw [hpha k hki] at hk; rw [hstat k]; exact hI.idleWaiting k hk
  · intro k hk
    rw [hstat k] at hk
    by_cases hki : k = i
    · rw [hki] at hk
      rcases hterm with h2 | h2
      · exact absurd (h2.symm.trans hk) (by decide)
      · exact absurd (h2.symm.trans hk) (by decide)
    · exact (hpha k hki).trans (hI.waitingIdle k hk)
  · intro k hk
    by_cases hki : k = i
    · rw [hki, hphaI] at hk; exact absurd hk (by simp)
    · rw [hpha k hki] at hk
      rw [hatt k, hprc k, hrer k, hbeg k, hdcl k]
      exact hI.idleZero k hk
  · intro k hk
    by_cases hki : k = i
    · rw [hki, hphaI] at hk; exact absurd hk (by simp)
    · rw [hpha k hki] at hk
      rw [hstat k, hatt k, hprc k, hrer k, hbeg k, hdcl k]
      exact hI.enteredInv k hk
  · intro k hk
    by_cases hki : k = i
    · rw [hki, hphaI] at hk; exact absurd hk (by simp)
    · rw [hpha k hki] at hk
      rw [hstat k, hbeg k, hdcl k]
      exact hI.retryingInv k hk
  · intro k s p hk
    by_cases hki : k = i
    · rw [hki, hphaI] at hk
      injection hk with h1a h2a
      rw [hki, hnlk i, hstat i, ← h1a, ← h2a, ← hlist]
      exact ⟨hterm, by simp⟩
    · rw [hpha k hki] at hk
      rw [hnlk k, hstat k]
      exact hI.notifyingInv k s p hk
  · intro k s hk
    by_cases hki : k = i
    · rw [hki, hphaI] at hk; exact absurd hk (by simp)
    · rw [hpha k hki] at hk
      rw [hnlk k, hstat k]
      exact hI.finishedInv k s hk
  · intro k hk
    rw [hstat k] at hk
    by_cases hki : k = i
    · rw [hki] at hk
      rcases hterm with h2 | h2
      · exact absurd (h2.symm.trans hk) (by decide)
      · exact absurd (h2.symm.trans hk) (by decide)
    · rcases hI.runningPhase k hk with h | h
      · exact Or.inl ((hpha k hki).trans h)
      · exact Or.inr ((hpha k hki).trans h)
  · intro k; rw [hstat k]; exact hI.statusRange k
  · intro k; rw [herrF k, hstat k]; exact hI.errIff k
  · intro k; rw [hatt k, hprc k]; exact hI.attemptsEq k
  · intro k; rw [hatt k]; exact hI.attemptsLe k
  · intro x
    rw [hdone x]
    have hcount : ∀ p, (sentList s2 p).count x =
        (sentList st p).count x + (if p = i then [c].count x else 0) := by
      intro p
      by_cases hpi : p = i
      · rw [hpi, hsentI, hsentI0, if_pos rfl, List.count_append]
      · rw [hsentne p hpi, if_neg hpi, Nat.add_zero]
    rw [Finset.sum_congr rfl (fun p _ => hcount p), Finset.sum_add_distrib,
      ← hI.doneDepSum x, Finset.sum_ite_eq' Finset.univ i (fun _ => [c].count x)]
    simp only [Finset.mem_univ, if_true]
    by_cases hxc : x = c
    · rw [if_pos hxc, hxc]
      simp
    · rw [if_neg hxc]
      have : [c].count x = 0 := by
        simp [List.count_singleton']
        exact fun h => hxc h.symm
      rw [this, Nat.add_zero]
  · intro k hk
    have hmono : (st k).doneDep ≤ (s2 k).doneDep := by
      rw [hdone k]
      by_cases hkc : k = c
      · rw [if_pos hkc, hkc]; exact Nat.le_succ _
      · rw [if_neg hkc]
    have hk' : (st k).phase ≠ Phase.idle := by
      by_cases hki : k = i
      · rw [hki, hph]; simp
      · rw [← hpha k hki]; exact hk
    rcases hI.startedDep k hk' with h | h
    · exact Or.inl h
    · exact Or.inr (le_trans h hmono)
  · intro k hk
    rcases hI.expiredZero k hk with ⟨ha, hb, hc2, hd, he2⟩
    refine ⟨?_, ?_, ?_, ?_, ?_⟩
    · rw [hatt k]; exact ha
    · rw [hprc k]; exact hb
    · rw [hbeg k]; exact hc2
    · rw [hdcl k]; exact hd
    · by_cases hki : k = i
      · rw [hki, hphaI]; simp
      · rw [hpha k hki]; exact he2
  · intro k hk hni hne
    by_cases hki : k = i
    · rw [hki] at hk
      have := hI.expiredFailed i hk (by rw [hph]; simp) (by rw [hph]; simp)
      rw [hki, hstat i, herrF i]
      exact this
    · rw [hpha k hki] at hni hne
      rw [hstat k, herrF k]
      exact hI.expiredFailed k hk hni hne

theorem inv_notifyChild_start {g : RunGraph n} {st : RState n} (hI : Inv g st)
    (i c : Fin n) (sent rest : List (Fin n))
    (hph : (st i).phase = Phase.notifying sent (c :: rest))
    (hb1 : (st c).doneDep + 1 = g.depCnt c) (hb2 : (st c).status = Waiting) :
    Inv g (Function.update (startUpd (bumpDep st c) c) i
      { startUpd (bumpDep st c) c i with phase := Phase.notifying (sent ++ [c]) rest }) := by
  obtain ⟨hterm, hlist⟩ := hI.notifyingInv i sent (c :: rest) hph
  have hci : c ≠ i := by
    intro hcon
    rw [hcon] at hb2
    rcases hterm with h2 | h2
    · rw [h2] at hb2; exact absurd hb2 (by decide)
    · rw [h2] at hb2; exact absurd hb2 (by decide)
  have hic : i ≠ c := Ne.symm hci
  have hidc : (st c).phase = Phase.idle := hI.waitingIdle c hb2
  rcases hI.idleZero c hidc with ⟨hcz1, hcz2, hcz3, hcz4, hcz5⟩
  have herrNC : (st c).errField = none := by
    by_contra hcon
    have := (hI.errIff c).mp hcon
    rw [hb2] at this; exact absurd this (by decide)
  have hBc : bumpDep st c c = { st c with doneDep := (st c).doneDep + 1 } := by
    unfold bumpDep; exact Function.update_same c _ st
  have hSBi : startUpd (bumpDep st c) c i = st i := by
    unfold startUpd; rw [Function.update_noteq hic, bumpDep_apply_ne hic]
  have hSBc : startUpd (bumpDep st c) c c = { st c with doneDep := (st c).doneDep + 1, status := Running, phase := Phase.entered } := by
    unfold startUpd; rw [Function.update_same, hBc]
  have hSBo : ∀ k, k ≠ i → k ≠ c → startUpd (bumpDep st c) c k = st k := by
    intro k _ hkc; unfold startUpd; rw [Function.update_noteq hkc, bumpDep_apply_ne hkc]
  set s3 := Function.update (startUpd (bumpDep st c) c) i
      { startUpd (bumpDep st c) c i with phase := Phase.notifying (sent ++ [c]) rest }
    with hs3
  have hself : s3 i = { startUpd (bumpDep st c) c i
      with phase := Phase.notifying (sent ++ [c]) rest } := by
    rw [hs3]; exact Function.update_same i _ _
  have hframe : ∀ k, k ≠ i → s3 k = startUpd (bumpDep st c) c k := by
    intro k hk; rw [hs3]; exact Function.update_noteq hk _ _
  have hc3 : s3 c = { st c with doneDep := (st c).doneDep + 1, status := Running, phase := Phase.entered } := by
    rw [hframe c hci]; exact hSBc
  have hstat : ∀ k, (s3 k).status = if k = c then Running else (st k).status := by
    intro k
    by_cases hkc : k = c
    · rw [hkc, if_pos rfl, hc3]
    · rw [if_neg hkc]
      by_cases hki : k = i
      · rw [hki, hself, hSBi]
      · rw [hframe k hki, hSBo k hki hkc]
  have hphaI : (s3 i).phase = Phase.notifying (sent ++ [c]) rest := by
    rw [hself]
  have hphaC : (s3 c).phase = Phase.entered := by rw [hc3]
  have hpha2 : ∀ k, k ≠ i → k ≠ c → (s3 k).phase = (st k).phase := by
    intro k hki hkc; rw [hframe k hki, hSBo k hki hkc]
  have hatt : ∀ k, (s3 k).attempts = (st k).attempts := by
    intro k
    by_cases hkc : k = c
    · rw [hkc, hc3]
    · by_cases hki : k = i
      · rw [hki, hself, hSBi]
      · rw [hframe k hki, hSBo k hki hkc]
  have hprc : ∀ k, (s3 k).procCalls = (st k).procCalls := by
    intro k
    by_cases hkc : k = c
    · rw [hkc, hc3]
    · by_cases hki : k = i
      · rw [hki, hself, hSBi]
      · rw [hframe k hki, hSBo k hki hkc]
  have hrer : ∀ k, (s3 k).retryErr = (st k).retryErr := by
    intro k
    by_cases hkc : k = c
    · rw [hkc, hc3]
    · by_cases hki : k = i
      · rw [hki, hself, hSBi]
      · rw [hframe k hki, hSBo k hki hkc]
  have hbeg : ∀ k, (s3 k).beginSet = (st k).beginSet := by
    intro k
    by_cases hkc : k = c
    · rw [hkc, hc3]
    · by_cases hki : k = i
      · rw [hki, hself, hSBi]
      · rw [hframe k hki, hSBo k hki hkc]
  have hdcl : ∀ k, (s3 k).doneClosed = (st k).doneClosed := by
    intro k
    by_cases hkc : k = c
    · rw [hkc, hc3]
    · by_cases hki : k = i
      · rw [hki, hself, hSBi]
      · rw [hframe k hki, hSBo k hki hkc]
  have herrF : ∀ k, (s3 k).errField = (st k).errField := by
    intro k
    by_cases hkc : k = c
    · rw [hkc, hc3]
    · by_cases hki : k = i
      · rw [hki, hself, hSBi]
      · rw [hframe k hki, hSBo k hki hkc]
  have hdone : ∀ k, (s3 k).doneDep = if k = c then (st c).doneDep + 1 else (st k).doneDep := by
    intro k
    by_cases hkc : k = c
    · rw [if_pos hkc, hkc, hc3]
    · rw [if_neg hkc]
      by_cases hki : k = i
      · rw [hki, hself, hSBi]
      · rw [hframe k hki, hSBo k hki hkc]
  have hnlk : ∀ k, notifyList g s3 k = notifyList g st k := by
    intro k
    rw [notifyList_eq, notifyList_eq]
    unfold notifyListOf
    by_cases hkc : k = c
    · have h2 : (s3 k).status = Running := by rw [hstat k, if_pos hkc]
      rw [h2, hkc, hb2]
      rw [if_neg (by decide : ¬(Running = Succeeded)),
        if_neg (by decide : ¬(Waiting = Succeeded))]
    · have h2 : (s3 k).status = (st k).status := by rw [hstat k, if_neg hkc]
      rw [h2]
  have hsentne : ∀ p, p ≠ i → sentList s3 p = sentList st p := by
    intro p hpi
    by_cases hpc : p = c
    · rw [hpc]; unfold sentList; rw [hphaC, hidc]
    · exact sentList_phase_congr (hpha2 p hpi hpc)
  have hsentI : sentList s3 i = sent ++ [c] := by
    unfold sentList; rw [hphaI]
  have hsentI0 : sentList st i = sent := by
    unfold sentList; rw [hph]
  constructor
  · intro k hk
    by_cases hki : k = i
    · rw [hki, hphaI] at hk; exact absurd hk (by simp)
    · by_cases hkc : k = c
      · rw [hkc, hphaC] at hk; exact absurd hk (by simp)
      · rw [hpha2 k hki hkc] at hk
        rw [hstat k, if_neg hkc]
        exact hI.idleWaiting k hk
  · intro k hk
    rw [hstat k] at hk
    by_cases hkc : k = c
    · rw [if_pos hkc] at hk; exact absurd hk (by decide)
    · rw [if_neg hkc] at hk
      by_cases hki : k = i
      · rw [hki] at hk
        rcases hterm with h2 | h2
        · exact absurd (h2.symm.trans hk) (by decide)
        · exact absurd (h2.symm.trans hk) (by decide)
      · exact (hpha2 k hki hkc).trans (hI.waitingIdle k hk)
  · intro k hk
    by_cases hki : k = i
    · rw [hki, hphaI] at hk; exact absurd hk (by simp)
    · by_cases hkc : k = c
      · rw [hkc, hphaC] at hk; exact absurd hk (by simp)
      · rw [hpha2 k hki hkc] at hk
        rw [hatt k, hprc k, hrer k, hbeg k, hdcl k]
        exact hI.idleZero k hk
  · intro k hk
    by_cases hki : k = i
    · rw [hki, hphaI] at hk; exact absurd hk (by simp)
    · by_cases hkc : k = c
      · rw [hkc]
        rw [hstat c, if_pos rfl, hatt c, hprc c, hrer c, hbeg c, hdcl c]
        exact ⟨rfl, hcz1, hcz2, hcz3, hcz4, hcz5⟩
      · rw [hpha2 k hki hkc] at hk
        rw [hstat k, if_neg hkc, hatt k, hprc k, hrer k, hbeg k, hdcl k]
        exact hI.enteredInv k hk
  · intro k hk
    by_cases hki : k = i
    · rw [hki, hphaI] at hk; exact absurd hk (by simp)
    · by_cases hkc : k = c
      · rw [hkc, hphaC] at hk; exact absurd hk (by simp)
      · rw [hpha2 k hki hkc] at hk
        rw [hstat k, if_neg hkc, hbeg k, hdcl k]
        exact hI.retryingInv k hk
  · intro k s p hk
    by_cases hki : k = i
    · rw [hki, hphaI] at hk
      injection hk with h1a h2a
      rw [hki, hnlk i, hstat i, if_neg hic, ← h1a, ← h2a, ← hlist]
      exact ⟨hterm, by simp⟩
    · by_cases hkc : k = c
      · rw [hkc, hphaC] at hk; exact absurd hk (by simp)
      · rw [hpha2 k hki hkc] at hk
        rw [hnlk k, hstat k, if_neg hkc]
        exact hI.notifyingInv k s p hk
  · intro k s hk
    by_cases hki : k = i
    · rw [hki, hphaI] at hk; exact absurd hk (by simp)
    · by_cases hkc : k = c
      · rw [hkc, hphaC] at hk; exact absurd hk (by simp)
      · rw [hpha2 k hki hkc] at hk
        rw [hnlk k, hstat k, if_neg hkc]
        exact hI.finishedInv k s hk
  · intro k hk
    by_cases hkc : k = c
    · rw [hkc]; exact Or.inl hphaC
    · rw [hstat k, if_neg hkc] at hk
      by_cases hki : k = i
      · rw [hki] at hk
        rcases hterm with h2 | h2
        · exact absurd (h2.symm.trans hk) (by decide)
        · exact absurd (h2.symm.trans hk) (by decide)
      · rcases hI.runningPhase k hk with h | h
        · exact Or.inl ((hpha2 k hki hkc).trans h)
        · exact Or.inr ((hpha2 k hki hkc).trans h)
  · intro k
    rw [hstat k]
    by_cases hkc : k = c
    · rw [if_pos hkc]; exact Or.inr (Or.inl rfl)
    · rw [if_neg hkc]; exact hI.statusRange k
  · intro k
    rw [herrF k, hstat k]
    by_cases hkc : k = c
    · rw [if_pos hkc, hkc]
      constructor
      · intro hcon; exact absurd herrNC hcon
      · intro hcon; exact absurd hcon (by decide)
    · rw [if_neg hkc]; exact hI.errIff k
  · intro k; rw [hatt k, hprc k]; exact hI.attemptsEq k
  · intro k; rw [hatt k]; exact hI.attemptsLe k
  · intro x
    rw [hdone x]
    have hcount : ∀ p, (sentList s3 p).count x =
        (sentList st p).count x + (if p = i then [c].count x else 0) := by
      intro p
      by_cases hpi : p = i
      · rw [hpi, hsentI, hsentI0, if_pos rfl, List.count_append]
      · rw [hsentne p hpi, if_neg hpi, Nat.add_zero]
    rw [Finset.sum_congr rfl (fun p _ => hcount p), Finset.sum_add_distrib,
      ← hI.doneDepSum x, Finset.sum_ite_eq' Finset.univ i (fun _ => [c].count x)]
    simp only [Finset.mem_univ, if_true]
    by_cases hxc : x = c
    · rw [if_pos hxc, hxc]
      simp
    · rw [if_neg hxc]
      have : [c].count x = 0 := by
        simp [List.count_singleton']
        exact fun h => hxc h.symm
      rw [this, Nat.add_zero]
  · intro k hk
    by_cases hkc : k = c
    · rw [hkc, hdone c, if_pos rfl, ← hb1]
      exact Or.inr (Nat.le_refl _)
    · have hmono : (st k).doneDep ≤ (s3 k).doneDep := by
        rw [hdone k, if_neg hkc]
      have hk' : (st k).phase ≠ Phase.idle := by
        by_cases hki : k = i
        · rw [hki, hph]; simp
        · rw [← hpha2 k hki hkc]; exact hk
      rcases hI.startedDep k hk' with h | h
      · exact Or.inl h
      · exact Or.inr (le_trans h hmono)
  · intro k hk
    rcases hI.expiredZero k hk with ⟨ha, hb, hc2, hd, he2⟩
    refine ⟨?_, ?_, ?_, ?_, ?_⟩
    · rw [hatt k]; exact ha
    · rw [hprc k]; exact hb
    · rw [hbeg k]; exact hc2
    · rw [hdcl k]; exact hd
    · by_cases hki : k = i
      · rw [hki, hphaI]; simp
      · by_cases hkc : k = c
        · rw [hkc, hphaC]; simp
        · rw [hpha2 k hki hkc]; exact he2
  · intro k hk hni hne
    by_cases hkc : k = c
    · rw [hkc, hphaC] at hne; exact absurd rfl hne
    · by_cases hki : k = i
      · rw [hki] at hk
        have := hI.expiredFailed i hk (by rw [hph]; simp) (by rw [hph]; simp)
        rw [hki, hstat i, if_neg hic, herrF i]
        exact this
      · rw [hpha2 k hki hkc] at hni hne
        rw [hstat k, if_neg hkc, herrF k]
        exact hI.expiredFailed k hk hni hne

theorem inv_notifyChild {g : RunGraph n} {st : RState n} (hI : Inv g st)
    (i c : Fin n) (sent rest : List (Fin n))
    (hph : (st i).phase = Phase.notifying sent (c :: rest)) :
    Inv g (notifyUpd g st i c sent rest) := by
  unfold notifyUpd onDepDoneUpd
  by_cases hb1 : (bumpDep st c c).doneDep = g.depCnt c
  · by_cases hb2 : (bumpDep st c c).status = Waiting
    · rw [if_pos hb1, if_pos hb2]
      have hb1' : (st c).doneDep + 1 = g.depCnt c := by
        rw [← hb1, bumpDep_doneDep, if_pos rfl]
      have hb2' : (st c).status = Waiting := by
        rw [← hb2, bumpDep_status]
      exact inv_notifyChild_start hI i c sent rest hph hb1' hb2'
    · rw [if_pos hb1, if_neg hb2]
      exact inv_notifyChild_nostart hI i c sent rest hph
  · rw [if_neg hb1]
    exact inv_notifyChild_nostart hI i c sent rest hph

/-- Every event preserves the invariant. -/
theorem inv_step {g : RunGraph n} {st st' : RState n} (hI : Inv g st)
    (h : Step g st st') : Inv g st' := by
  cases h with
  | fireRoot i hdep hst hph => exact inv_fireRoot hI i hdep hst hph
  | runBody i hph => exact inv_runBody hI i hph
  | attempt i hph hrun hlt => exact inv_attempt hI i hph hrun hlt
  | watcherFire i hph hw => exact inv_watcherFire hI i hph
  | finishRetry i hph hexit => exact inv_finishRetry hI i hph
  | notifyChild i c sent rest hph => exact inv_notifyChild hI i c sent rest hph
  | notifyDone i sent hph => exact inv_notifyDone hI i sent hph

/-- The invariant holds in every reachable state of a run. -/
theorem reachable_inv {g : RunGraph n} {st : RState n} (h : Reachable g st) :
    Inv g st := by
  unfold Reachable at h
  induction h with
  | refl => exact inv_init g
  | tail _ hbc ih => exact inv_step ih hbc

/-- A node never delivers more copies of an edge than its notification
list holds. -/
theorem sent_count_le {g : RunGraph n} {st : RState n} (hI : Inv g st) (q c : Fin n) :
    (sentList st q).count c ≤ (notifyList g st q).count c := by
  cases hq : (st q).phase with
  | idle =>
    have h3 : sentList st q = [] := by unfold sentList; rw [hq]
    rw [h3]; simp
  | entered =>
    have h3 : sentList st q = [] := by unfold sentList; rw [hq]
    rw [h3]; simp
  | retrying =>
    have h3 : sentList st q = [] := by unfold sentList; rw [hq]
    rw [h3]; simp
  | notifying s pnd =>
    have h2 := (hI.notifyingInv q s pnd hq).2
    have h3 : sentList st q = s := by unfold sentList; rw [hq]
    rw [h3, ← h2, List.count_append]
    exact Nat.le_add_right _ _
  | finished s =>
    have h2 := (hI.finishedInv q s hq).2
    have h3 : sentList st q = s := by unfold sentList; rw [hq]
    rw [h3, h2]

/-- The notification list of a node is a sub-multiset of its strong and
weak child lists. -/
theorem notifyList_count_le (g : RunGraph n) (st : RState n) (q c : Fin n) :
    (notifyList g st q).count c ≤ (g.children q).count c + (g.weakChildren q).count c := by
  unfold notifyList
  rw [List.count_append]
  by_cases h : (st q).status = Succeeded
  · rw [if_pos h]
  · rw [if_neg h]
    simp

/-- A `Failed` node notifies exactly its weak children. -/
theorem notifyList_failed {g : RunGraph n} {st : RState n} {q : Fin n}
    (h : (st q).status = Failed) : notifyList g st q = g.weakChildren q := by
  unfold notifyList
  rw [if_neg (by rw [h]; decide), List.nil_append]

/-- A `Succeeded` node notifies its strong children followed by its weak
children. -/
theorem notifyList_succeeded {g : RunGraph n} {st : RState n} {q : Fin n}
    (h : (st q).status = Succeeded) :
    notifyList g st q = g.children q ++ g.weakChildren q := by
  unfold notifyList
  rw [if_pos h]

/-- While a strong parent is `Failed`, the child's dependency counter is
strictly below its dependency count. -/
theorem failed_parent_deficit {g : RunGraph n} {st : RState n} (hwf : Wf g)
    (hI : Inv g st) (p c : Fin n) (hedge : c ∈ g.children p)
    (hfail : (st p).status = Failed) : (st c).doneDep + 1 ≤ g.depCnt c := by
  have hcnt1 : 1 ≤ (g.children p).count c := List.count_pos_iff.mpr hedge
  have hfp : (sentList st p).count c ≤ (g.weakChildren p).count c := by
    have h2 := sent_count_le hI p c
    rw [notifyList_failed hfail] at h2
    exact h2
  have hbound : ∀ q, (sentList st q).count c ≤
      (g.children q).count c + (g.weakChildren q).count c :=
    fun q => le_trans (sent_count_le hI q c) (notifyList_count_le g st q c)
  rw [hI.doneDepSum c, hwf c]
  rw [← Finset.add_sum_erase Finset.univ (fun q => (sentList st q).count c) (Finset.mem_univ p),
    ← Finset.add_sum_erase Finset.univ
      (fun q => (g.children q).count c + (g.weakChildren q).count c) (Finset.mem_univ p)]
  have h2 : ∑ q ∈ Finset.univ.erase p, (sentList st q).count c ≤
      ∑ q ∈ Finset.univ.erase p, ((g.children q).count c + (g.weakChildren q).count c) :=
    Finset.sum_le_sum (fun q _ => hbound q)
  have h3 := hfp
  have h4 := hcnt1
  omega

/-! ## Claim theorems over the run model -/

/-- Claim C1: in every reachable state of a run over a well-formed
graph, a node `c` with a strong parent `p` whose status is `Failed` was
never started: its status is `Waiting`, its `attempts` counter is `0`,
its processor was never invoked, and its worker was never dispatched;
moreover a finished node delivered `onDepDone` to its strong children
exactly when it `Succeeded`, and to its weak children in every case. -/
theorem c1_failed_strong_parent_blocks {n : Nat} (g : RunGraph n) (st : RState n)
    (hwf : Wf g) (hre : Reachable g st) (p c : Fin n)
    (hedge : c ∈ g.children p) (hfail : (st p).status = Failed) :
    ((st c).status = Waiting ∧ (st c).attempts = 0 ∧ (st c).procCalls = 0 ∧
      (st c).phase = Phase.idle) ∧
    (∀ q sentq, (st q).phase = Phase.finished sentq →
      ((st q).status = Failed → sentq = g.weakChildren q) ∧
      ((st q).status = Succeeded → sentq = g.children q ++ g.weakChildren q)) := by
  have hI := reachable_inv hre
  have hd := failed_parent_deficit hwf hI p c hedge hfail
  have hidle : (st c).phase = Phase.idle := by
    by_contra hni
    rcases hI.startedDep c hni with h | h
    · omega
    · omega
  rcases hI.idleZero c hidle with ⟨h1, h2, _, _, _⟩
  refine ⟨⟨hI.idleWaiting c hidle, h1, h2, hidle⟩, ?_⟩
  intro q sentq hq
  obtain ⟨_, hsent⟩ := hI.finishedInv q sentq hq
  constructor
  · intro hf; rw [hsent, notifyList_failed hf]
  · intro hs; rw [hsent, notifyList_succeeded hs]

/-- Claim C2: `DoIfRunning` runs `fn` and returns `true` exactly when
the status it observes is `Running`, and returns the state untouched
with `false` otherwise; and once a node's status is `Failed` (as after
the deadline watcher's flip), it stays `Failed` in every later state, so
every subsequent `DoIfRunning` against it returns `false` without
running `fn`. -/
theorem c2_doIfRunning_gate {n : Nat} (α : Type) (g : RunGraph n) :
    (∀ (status : Nat) (fn : α → α) (s : α),
      ((DoIfRunning status fn s).2 = true ↔ status = Running) ∧
      (status = Running → DoIfRunning status fn s = (fn s, true)) ∧
      (status ≠ Running → DoIfRunning status fn s = (s, false))) ∧
    (∀ (st st' : RState n) (i : Fin n), (st i).status = Failed →
      Relation.ReflTransGen (Step g) st st' →
      (st' i).status = Failed ∧
      ∀ (fn : α → α) (s : α), DoIfRunning ((st' i).status) fn s = (s, false)) := by
  constructor
  · intro status fn s
    refine ⟨?_, ?_, ?_⟩
    · unfold DoIfRunning
      by_cases h : status = Running
      · rw [if_neg (by simpa using h)]; simpa using h
      · rw [if_pos (by simpa using h)]; simpa using h
    · intro h; unfold DoIfRunning; rw [if_neg (by simpa using h)]
    · intro h; unfold DoIfRunning; rw [if_pos (by simpa using h)]
  · intro st st' i hf hstar
    have hstable := star_failed_stable g hstar i hf
    refine ⟨hstable, ?_⟩
    intro fn s
    unfold DoIfRunning
    rw [if_pos (by rw [hstable]; decide)]

/-- Claim C3: every status change any event makes is one of the
compare-and-swaps Waiting→Running, Running→Succeeded, Running→Failed; a
terminal status is never reversed and at most one of
Succeeded/Failed ever takes effect; and when all workers have returned
(`wg.Wait` released, results being collected) no node's status is
`Running` — it is `Waiting`, `Succeeded` or `Failed`. -/
theorem c3_status_machine {n : Nat} (g : RunGraph n) :
    (∀ (st st' : RState n), Step g st st' → ∀ i,
      (st' i).status = (st i).status ∨
      ((st i).status = Waiting ∧ (st' i).status = Running) ∨
      ((st i).status = Running ∧ ((st' i).status = Succeeded ∨ (st' i).status = Failed))) ∧
    (∀ (st st' : RState n) (i : Fin n), Relation.ReflTransGen (Step g) st st' →
      ((st i).status = Succeeded → (st' i).status = Succeeded ∧ (st' i).status ≠ Failed) ∧
      ((st i).status = Failed → (st' i).status = Failed ∧ (st' i).status ≠ Succeeded)) ∧
    (∀ st : RState n, Reachable g st → Quiescent st → ∀ i,
      (st i).status ≠ Running ∧
      ((st i).status = Waiting ∨ (st i).status = Succeeded ∨ (st i).status = Failed)) := by
  refine ⟨fun st st' h i => step_status g h i, ?_, ?_⟩
  · intro st st' i hstar
    constructor
    · intro hs
      have h2 := star_succ_stable g hstar i hs
      exact ⟨h2, by rw [h2]; decide⟩
    · intro hs
      have h2 := star_failed_stable g hstar i hs
      exact ⟨h2, by rw [h2]; decide⟩
  · intro st hre hq i
    have hI := reachable_inv hre
    rcases hq i with h | ⟨sent, h⟩
    · have h2 := hI.idleWaiting i h
      exact ⟨by rw [h2]; decide, Or.inl h2⟩
    · rcases (hI.finishedInv i sent h).1 with h2 | h2
      · exact ⟨by rw [h2]; decide, Or.inr (Or.inl h2)⟩
      · exact ⟨by rw [h2]; decide, Or.inr (Or.inr h2)⟩

/-- Claim C5: a node whose graph deadline had already passed when its
worker entered `run` (`totalTimeout > 0` and the `time.Now().After`
check true) never invokes its processor and never increments `attempts`;
once its worker is past the branch it is `Failed` with the `TimeoutErr`
sentinel, and at the end of `run` it has notified exactly its weak
children. -/
theorem c5_total_timeout_expired {n : Nat} (g : RunGraph n) (st : RState n)
    (hre : Reachable g st) (i : Fin n)
    (htt : g.totalTimeout i > 0) (hex : g.expired i = true) :
    (st i).attempts = 0 ∧ (st i).procCalls = 0 ∧
    (∀ s p, (st i).phase = Phase.notifying s p →
      (st i).status = Failed ∧ (st i).errField = some TimeoutErr) ∧
    (∀ s, (st i).phase = Phase.finished s →
      (st i).status = Failed ∧ (st i).errField = some TimeoutErr ∧
      s = g.weakChildren i) := by
  have hI := reachable_inv hre
  have hexE : expiredAtEntry g i = true := by
    unfold expiredAtEntry
    rw [hex]
    simp [htt]
  rcases hI.expiredZero i hexE with ⟨h1, h2, _, _, _⟩
  refine ⟨h1, h2, ?_, ?_⟩
  · intro s p hp
    exact hI.expiredFailed i hexE (by rw [hp]; simp) (by rw [hp]; simp)
  · intro s hp
    have h3 := hI.expiredFailed i hexE (by rw [hp]; simp) (by rw [hp]; simp)
    have h4 := (hI.finishedInv i s hp).2
    exact ⟨h3.1, h3.2, by rw [h4, notifyList_failed h3.1]⟩

/-- Claim C10: in every reachable state of a run, a node's `err` field
is non-nil exactly when its status is `Failed`; nodes at `Waiting` or
`Succeeded` carry a nil error. -/
theorem c10_err_iff_failed {n : Nat} (g : RunGraph n) (st : RState n)
    (hre : Reachable g st) (i : Fin n) :
    ((st i).errField ≠ none ↔ (st i).status = Failed) ∧
    ((st i).status = Waiting ∨ (st i).status = Succeeded → (st i).errField = none) := by
  have hI := reachable_inv hre
  refine ⟨hI.errIff i, ?_⟩
  intro h
  by_contra hcon
  have h2 := (hI.errIff i).mp hcon
  rcases h with h | h
  · rw [h] at h2; exact absurd h2 (by decide)
  · rw [h] at h2; exact absurd h2 (by decide)

/-! ## Concrete runs used as witnesses

Run A: node 0 (a root with a processor that always fails, one attempt)
and node 1, a strong child of node 0.  Run B: node 0 (a root whose
graph deadline has already passed at run entry) and node 1, a weak child
of node 0.  Run C: a single node with a local timeout whose watcher
fires mid-retry. -/

def gA : RunGraph 2 :=
  { children := fun i => if i = 0 then [1] else [],
    weakChildren := fun _ => [],
    depCnt := fun i => if i = 0 then 0 else 1,
    hasProcessor := fun i => if i = 0 then true else false,
    maxAttempts := fun _ => 1,
    localTimeout := fun _ => 0,
    totalTimeout := fun _ => 0,
    expired := fun _ => false,
    procResult := fun _ _ => some (GoError.user 7) }

def sA1 : RState 2 := startUpd (initState 2) 0
def sA2 : RState 2 := bodyUpd gA sA1 0
def sA3 : RState 2 := attemptUpd gA sA2 0
def sA4 : RState 2 := finishRetryUpd gA sA3 0
def sA5 : RState 2 := finishNotifyUpd sA4 0 []

theorem reachA : Reachable gA sA5 := by
  have h1 : Step gA (initState 2) sA1 :=
    Step.fireRoot (initState 2) 0 (by decide) (by decide) (by decide)
  have h2 : Step gA sA1 sA2 := Step.runBody sA1 0 (by decide)
  have h3 : Step gA sA2 sA3 := Step.attempt sA2 0 (by decide) (by decide) (by decide)
  have h4 : Step gA sA3 sA4 := Step.finishRetry sA3 0 (by decide) (by decide)
  have h5 : Step gA sA4 sA5 := Step.notifyDone sA4 0 [] (by decide)
  exact Relation.ReflTransGen.tail (Relation.ReflTransGen.tail (Relation.ReflTransGen.tail
    (Relation.ReflTransGen.tail (Relation.ReflTransGen.single h1) h2) h3) h4) h5

def gB : RunGraph 2 :=
  { children := fun _ => [],
    weakChildren := fun i => if i = 0 then [1] else [],
    depCnt := fun i => if i = 0 then 0 else 1,
    hasProcessor := fun _ => false,
    maxAttempts := fun _ => 1,
    localTimeout := fun _ => 0,
    totalTimeout := fun i => if i = 0 then 5000000 else 0,
    expired := fun i => if i = 0 then true else false,
    procResult := fun _ _ => none }

def sB1 : RState 2 := startUpd (initState 2) 0
def sB2 : RState 2 := bodyUpd gB sB1 0
def sB3 : RState 2 := notifyUpd gB sB2 0 1 [] []
def sB4 : RState 2 := finishNotifyUpd sB3 0 [1]

theorem reachB : Reachable gB sB4 := by
  have h1 : Step gB (initState 2) sB1 :=
    Step.fireRoot (initState 2) 0 (by decide) (by decide) (by decide)
  have h2 : Step gB sB1 sB2 := Step.runBody sB1 0 (by decide)
  have h3 : Step gB sB2 sB3 := Step.notifyChild sB2 0 1 [] [] (by decide)
  have h4 : Step gB sB3 sB4 := Step.notifyDone sB3 0 [1] (by decide)
  exact Relation.ReflTransGen.tail (Relation.ReflTransGen.tail
    (Relation.ReflTransGen.tail (Relation.ReflTransGen.single h1) h2) h3) h4

def gC : RunGraph 1 :=
  { children := fun _ => [],
    weakChildren := fun _ => [],
    depCnt := fun _ => 0,
    hasProcessor := fun _ => true,
    maxAttempts := fun _ => 1,
    localTimeout := fun _ => 5000000,
    totalTimeout := fun _ => 0,
    expired := fun _ => false,
    procResult := fun _ _ => none }

def sC1 : RState 1 := startUpd (initState 1) 0
def sC2 : RState 1 := bodyUpd gC sC1 0
def sC3 : RState 1 := watcherUpd sC2 0
def sC4 : RState 1 := finishRetryUpd gC sC3 0

theorem reachC3 : Reachable gC sC3 := by
  have h1 : Step gC (initState 1) sC1 :=
    Step.fireRoot (initState 1) 0 (by decide) (by decide) (by decide)
  have h2 : Step gC sC1 sC2 := Step.runBody sC1 0 (by decide)
  have h3 : Step gC sC2 sC3 := Step.watcherFire sC2 0 (by decide) (by decide)
  exact Relation.ReflTransGen.tail (Relation.ReflTransGen.tail
    (Relation.ReflTransGen.single h1) h2) h3

/-- Witness for claim C1, on run A: the graph is well-formed, node 0
ended `Failed`, node 1 is its strong child, and the theorem yields that
node 1 is still `Waiting` with zero attempts and no processor call. -/
theorem c1_witness :
    Wf gA ∧ (1 : Fin 2) ∈ gA.children 0 ∧ (sA5 0).status = Failed ∧
    ((sA5 1).status = Waiting ∧ (sA5 1).attempts = 0 ∧ (sA5 1).procCalls = 0 ∧
      (sA5 1).phase = Phase.idle) :=
  ⟨by unfold Wf; decide, by decide, by decide,
    (c1_failed_strong_parent_blocks gA sA5 (by unfold Wf; decide) reachA 0 1
      (by decide) (by decide)).1⟩

/-- Witness for claim C2, on run C: after the deadline watcher flipped
node 0 from `Running` to `Failed`, one further step later `DoIfRunning`
still returns `false` without running `fn`. -/
theorem c2_witness :
    (sC3 0).status = Failed ∧
    ((sC4 0).status = Failed ∧
      ∀ (fn : Nat → Nat) (s : Nat), DoIfRunning ((sC4 0).status) fn s = (s, false)) :=
  ⟨by decide,
    (c2_doIfRunning_gate Nat gC).2 sC3 sC4 0 (by decide)
      (Relation.ReflTransGen.single (Step.finishRetry sC3 0 (by decide) (by decide)))⟩

/-- Witness for claim C3, on run A's final quiescent state. -/
theorem c3_witness :
    (sA5 0).status ≠ Running ∧
    ((sA5 0).status = Waiting ∨ (sA5 0).status = Succeeded ∨ (sA5 0).status = Failed) :=
  (c3_status_machine gA).2.2 sA5 reachA
    (by
      intro i
      fin_cases i
      · exact Or.inr ⟨[], by decide⟩
      · exact Or.inl (by decide)) 0

/-- Witness for claim C5, on run B: the pre-expired node 0 has zero
attempts, no processor call, ended `Failed` with the timeout sentinel,
and notified exactly its weak child list `[1]`. -/
theorem c5_witness :
    gB.totalTimeout 0 > 0 ∧ gB.expired 0 = true ∧
    ((sB4 0).attempts = 0 ∧ (sB4 0).procCalls = 0 ∧
      ((sB4 0).status = Failed ∧ (sB4 0).errField = some TimeoutErr ∧
        [1] = gB.weakChildren 0)) ∧
    (sB4 1).status = Running :=
  ⟨by decide, by decide,
    ⟨(c5_total_timeout_expired gB sB4 reachB 0 (by decide) (by decide)).1,
      (c5_total_timeout_expired gB sB4 reachB 0 (by decide) (by decide)).2.1,
      (c5_total_timeout_expired gB sB4 reachB 0 (by decide) (by decide)).2.2.2 [1] (by decide)⟩,
    by decide⟩

/-- Witness for claim C10, on run A's final state: node 0 is `Failed`
with the recorded user error, node 1 is `Waiting` with a nil error. -/
theorem c10_witness :
    ((sA5 0).errField ≠ none ↔ (sA5 0).status = Failed) ∧
    (sA5 0).errField = some (GoError.user 7) ∧ (sA5 1).errField = none :=
  ⟨(c10_err_iff_failed gA sA5 reachA 0).1, by decide, by decide⟩

/-! ## The retry loop: bounds on attempts and processor invocations -/

theorem retryLoop_le (maxA : Nat) (pr : Nat → Option GoError) (cs bs : Nat → Nat)
    (hb : Bool) : ∀ (k : Nat) (s : RetrySt), maxA - s.attempts ≤ k →
    s.attempts ≤ maxA → (retryLoop maxA pr cs bs hb s).attempts ≤ maxA := by
  intro k
  induction k with
  | zero =>
    intro s hk h0
    rw [retryLoop, dif_neg (by omega)]
    exact h0
  | succ k ih =>
    intro s hk h0
    rw [retryLoop]
    by_cases hlt : s.attempts < maxA
    · rw [dif_pos hlt]
      dsimp only
      split
      · exact h0
      · split
        · exact hlt
        · split
          · split
            · exact hlt
            · exact ih _ (by dsimp only; omega) (by dsimp only; omega)
          · exact ih _ (by dsimp only; omega) (by dsimp only; omega)
    · rw [dif_neg hlt]
      exact h0

theorem retryLoop_calls (maxA : Nat) (pr : Nat → Option GoError) (cs bs : Nat → Nat)
    (hb : Bool) : ∀ (k : Nat) (s : RetrySt), maxA - s.attempts ≤ k →
    s.attempts = s.procCalls →
    (retryLoop maxA pr cs bs hb s).attempts = (retryLoop maxA pr cs bs hb s).procCalls := by
  intro k
  induction k with
  | zero =>
    intro s hk h0
    rw [retryLoop, dif_neg (by omega)]
    exact h0
  | succ k ih =>
    intro s hk h0
    rw [retryLoop]
    by_cases hlt : s.attempts < maxA
    · rw [dif_pos hlt]
      dsimp only
      split
      · exact h0
      · split
        · dsimp only; omega
        · split
          · split
            · dsimp only; omega
            · exact ih _ (by dsimp only; omega) (by dsimp only; omega)
          · exact ih _ (by dsimp only; omega) (by dsimp only; omega)
    · rw [dif_neg hlt]
      exact h0

/-- Claim C7: the retry loop invokes the processor at most
`maxUint 1 maxAttempts` times (a `MaxAttempts` of 0 is treated as 1),
the recorded `attempts` counter equals the number of processor
invocations, and `attempts` is positive exactly when the processor ran
at least once. -/
theorem c7_retry_bounds (ma : Nat) (pr : Nat → Option GoError) (cs bs : Nat → Nat)
    (hb : Bool) :
    (processWithRetry ma pr cs bs hb).attempts ≤ maxUint 1 ma ∧
    (processWithRetry ma pr cs bs hb).procCalls ≤ maxUint 1 ma ∧
    (processWithRetry ma pr cs bs hb).attempts = (processWithRetry ma pr cs bs hb).procCalls ∧
    (0 < (processWithRetry ma pr cs bs hb).attempts ↔
      0 < (processWithRetry ma pr cs bs hb).procCalls) ∧
    maxUint 1 0 = 1 := by
  have h1 : (processWithRetry ma pr cs bs hb).attempts ≤ maxUint 1 ma :=
    retryLoop_le (maxUint 1 ma) pr cs bs hb (maxUint 1 ma)
      { attempts := 0, procCalls := 0, err := none } (by dsimp only; omega)
      (by dsimp only; omega)
  have h2 : (processWithRetry ma pr cs bs hb).attempts =
      (processWithRetry ma pr cs bs hb).procCalls :=
    retryLoop_calls (maxUint 1 ma) pr cs bs hb (maxUint 1 ma)
      { attempts := 0, procCalls := 0, err := none } (by dsimp only; omega) rfl
  exact ⟨h1, by omega, h2, by omega, rfl⟩

/-- Claim C8 (evaluation at the failing input): on a pool with
`maxWorkers = 1`, the first submission spawns a worker; the second is
queued (`len = 1`); when the busy worker then dequeues, it takes the
`f` field of the sentinel head node — a nil function value
(`some none`: the worker proceeds to call nil, a Go runtime panic) —
instead of the queued thunk `some 20`, which is left in the list.  The
claimed FIFO discipline (each queued thunk executed exactly once, in
order) fails at the very first dequeue. -/
theorem c8_pool_fifo_bug :
    (Submit (NewPool Nat 1) (some 10)).2 = some 10 ∧
    (Submit (NewPool Nat 1) (some 10)).1.workers = 1 ∧
    (Submit (Submit (NewPool Nat 1) (some 10)).1 (some 20)).1.len = 1 ∧
    (Submit (Submit (NewPool Nat 1) (some 10)).1 (some 20)).1.tasks = [none, some 20] ∧
    (workDequeue (Submit (Submit (NewPool Nat 1) (some 10)).1 (some 20)).1).2 = some none ∧
    (workDequeue (Submit (Submit (NewPool Nat 1) (some 10)).1 (some 20)).1).2 ≠
      some (some 20) ∧
    (workDequeue (Submit (Submit (NewPool Nat 1) (some 10)).1 (some 20)).1).1.tasks =
      [some 20] := by
  decide

/-- Claim C6 counterexample: run B's node 0 was failed at run entry by
the already-expired graph deadline; its `begin` was never assigned (it
is Go's zero time, instant `0`) and its `done` channel never closed, so
`GetCost` at collection time (`now` ≈ October 2025 on the
nanoseconds-since-zero-time axis) returns `time.Since(zero)`, which
saturates to `2^63 - 1` ns (about 292 years) — not a value close to 0
(it even exceeds one hour, and a fortiori the 5 ms total timeout). -/
theorem c6_counterexample :
    (sB4 0).status = Failed ∧ (sB4 0).errField = some TimeoutErr ∧
    (sB4 0).beginSet = false ∧ (sB4 0).doneClosed = false ∧
    GetCost false 0 63893000000000000000 0 = 9223372036854775807 ∧
    ¬(GetCost false 0 63893000000000000000 0 ≤ 3600000000000) := by
  decide

/-- Claim C6 amended: for a node marked Failed(Timeout) because the
graph deadline had already elapsed when its worker started, `begin` is
never assigned and `done` is never closed, so the cost reported in its
result record is `time.Since` of the zero time — saturated by Go to the
maximum duration `2^63 - 1` ns — rather than a value close to 0. -/
theorem c6_amended {n : Nat} (g : RunGraph n) (st : RState n) (hre : Reachable g st)
    (i : Fin n) (htt : g.totalTimeout i > 0) (hex : g.expired i = true)
    (now : Int) (hnow : maxGoDuration ≤ now) :
    (st i).beginSet = false ∧ (st i).doneClosed = false ∧
    ∀ cost : Int, GetCost ((st i).doneClosed) cost now 0 = maxGoDuration := by
  have hI := reachable_inv hre
  have hexE : expiredAtEntry g i = true := by
    unfold expiredAtEntry
    rw [hex]
    simp [htt]
  rcases hI.expiredZero i hexE with ⟨_, _, h3, h4, _⟩
  refine ⟨h3, h4, ?_⟩
  intro cost
  rw [h4]
  unfold GetCost satDuration
  rw [if_neg (by decide : ¬(false = true))]
  rw [show now - 0 = now from by ring]
  by_cases hgt : now > maxGoDuration
  · rw [if_pos hgt]
  · have heq : now = maxGoDuration := le_antisymm (not_lt.mp hgt) hnow
    rw [if_neg hgt, if_neg (by rw [heq]; decide), heq]

/-- Witness for the amended claim C6, on run B's node 0. -/
theorem c6_amended_witness :
    (sB4 0).beginSet = false ∧ (sB4 0).doneClosed = false ∧
    ∀ cost : Int, GetCost ((sB4 0).doneClosed) cost 63893000000000000000 0 = maxGoDuration :=
  c6_amended gB sB4 reachB 0 (by decide) (by decide) 63893000000000000000 (by decide)

/-! ## The shape of every cycle-detection error -/

/-- The format the spec prescribes for cycle errors: the literal prefix
followed by a name path joined by arrows, beginning and ending with the
same node name. -/
def cycleShape (e : String) : Prop :=
  ∃ nm mid, e = "cyclic dependency detected: " ++
    String.intercalate " -> " (nm :: (mid ++ [nm]))

theorem cycleErrMsg_shape (ms : Array NodeMeta) (next : Array Int) (idx : Nat) :
    cycleShape (cycleErrMsg ms next idx) := by
  refine ⟨nameAt ms idx,
    (cycleWalk ms next ms.size (next.getD idx (-1)) idx).reverse, ?_⟩
  have h : ((nameAt ms idx :: cycleWalk ms next ms.size (next.getD idx (-1)) idx)
      ++ [nameAt ms idx]).reverse =
      nameAt ms idx ::
        ((cycleWalk ms next ms.size (next.getD idx (-1)) idx).reverse ++ [nameAt ms idx]) := by
    rw [List.reverse_append, List.reverse_cons]
    simp
  show "cyclic dependency detected: " ++ String.intercalate " -> "
      (((nameAt ms idx :: cycleWalk ms next ms.size (next.getD idx (-1)) idx)
        ++ [nameAt ms idx]).reverse) = _
  rw [h]

theorem detectChildren_shape (step : CycleSt → Nat → Except String CycleSt)
    (hA : ∀ (s : CycleSt) (c : Nat) (e : String),
      step s c = Except.error e → cycleShape e) (idx : Nat) :
    ∀ (l : List Nat) (st : CycleSt) (e : String),
      detectChildren step idx st l = Except.error e → cycleShape e := by
  intro l
  induction l with
  | nil =>
    intro st e h
    simp only [detectChildren] at h
    exact absurd h (by simp)
  | cons c rest ih =>
    intro st e h
    simp only [detectChildren] at h
    split at h
    · next e1 heq =>
      injection h with h2
      rw [← h2]
      exact hA _ _ _ heq
    · next st2 heq =>
      exact ih st2 e h

theorem detectCycle_shape (ms : Array NodeMeta) :
    ∀ (fuel : Nat) (st : CycleSt) (idx : Nat) (e : String),
      detectCycle ms fuel st idx = Except.error e → cycleShape e := by
  intro fuel
  induction fuel with
  | zero =>
    intro st idx e h
    simp only [detectCycle] at h
    split at h
    · injection h with h2
      rw [← h2]
      exact cycleErrMsg_shape ms st.next idx
    · split at h
      · exact absurd h (by simp)
      · exact absurd h (by simp)
  | succ f ih =>
    intro st idx e h
    simp only [detectCycle] at h
    split at h
    · injection h with h2
      rw [← h2]
      exact cycleErrMsg_shape ms st.next idx
    · split at h
      · exact absurd h (by simp)
      · split at h
        · next e1 heq =>
          injection h with h2
          rw [← h2]
          exact detectChildren_shape _ (fun s c e2 he => ih s c e2 he) _ _ _ _ heq
        · next st2 heq =>
          split at h
          · next e2 heq2 =>
            injection h with h2
            rw [← h2]
            exact detectChildren_shape _ (fun s c e3 he => ih s c e3 he) _ _ _ _ heq2
          · exact absurd h (by simp)

theorem detectAll_shape (ms : Array NodeMeta) :
    ∀ (l : List Nat) (st : CycleSt) (e : String),
      detectAll ms st l = Except.error e → cycleShape e := by
  intro l
  induction l with
  | nil =>
    intro st e h
    simp only [detectAll] at h
    exact absurd h (by simp)
  | cons i rest ih =>
    intro st e h
    simp only [detectAll] at h
    split at h
    · next e1 heq =>
      injection h with h2
      rw [← h2]
      exact detectCycle_shape ms _ _ _ _ heq
    · next st2 heq =>
      exact ih st2 e h

theorem build_shape (defs : List UserNode) (leaves : List (Option Nat)) (e : String)
    (h : build defs leaves = Except.error e) : cycleShape e := by
  unfold build at h
  split at h
  · next e1 heq =>
    injection h with h2
    rw [← h2]
    exact detectAll_shape _ _ _ _ heq
  · exact absurd h (by simp)

/-- The cyclic three-node set of the repository's `TestCycle`:
`node1.dep = [node3]`, `node2.dep = [node1]`, `node3.dep = [node2]`;
indices into the table stand for the user's node pointers. -/
def cycDefs : List UserNode :=
  [{ name := "node1", deps := [some 2], weakDeps := [] },
   { name := "node2", deps := [some 0], weakDeps := [] },
   { name := "node3", deps := [some 1], weakDeps := [] }]

/-- A two-node cycle closed through weak edges only. -/
def weakCycDefs : List UserNode :=
  [{ name := "a", deps := [], weakDeps := [some 1] },
   { name := "b", deps := [], weakDeps := [some 0] }]

/-- Claim C4: `new_dag` on the cyclic three-node set, with leaves input
`[node3]`, returns no DAG but exactly the error
`"cyclic dependency detected: node3 -> node2 -> node1 -> node3"`; a
cycle closed through weak edges is likewise rejected; and every error
`build` can ever return consists of the literal prefix followed by the
cycle's node names joined by `" -> "`, beginning and ending with the
same name. -/
theorem c4_cycle_error_format :
    build cycDefs [some 2] =
      Except.error "cyclic dependency detected: node3 -> node2 -> node1 -> node3" ∧
    build weakCycDefs [some 0] =
      Except.error "cyclic dependency detected: a -> b -> a" ∧
    (∀ (defs : List UserNode) (leaves : List (Option Nat)) (e : String),
      build defs leaves = Except.error e → cycleShape e) := by
  refine ⟨?_, ?_, build_shape⟩
  · rfl
  · rfl

/-- Witness for claim C4: the general shape statement applied to the
concrete cyclic input. -/
theorem c4_witness :
    build cycDefs [some 2] =
      Except.error "cyclic dependency detected: node3 -> node2 -> node1 -> node3" ∧
    cycleShape "cyclic dependency detected: node3 -> node2 -> node1 -> node3" :=
  ⟨c4_cycle_error_format.1,
    c4_cycle_error_format.2.2 cycDefs [some 2] _ c4_cycle_error_format.1⟩

/-! ## The Mermaid output format -/

/-- The node-declaration lines the spec prescribes: one line
`    i(name)` per metadata index `i`, in index order. -/
def mermaidNodeLines (dag : DAGModel) : List String :=
  (List.range dag.metaNodes.toList.length).map (fun i =>
    "    " ++ toString i ++ "(" ++ (dag.metaNodes.toList.getD i emptyMeta).name ++ ")\n")

/-- The solid-arrow lines the spec prescribes: one line `    p --> c`
per strong edge, grouped by parent index. -/
def strongEdgeLines (dag : DAGModel) : List String :=
  ((List.range dag.metaNodes.toList.length).map (fun i =>
    (dag.metaNodes.toList.getD i emptyMeta).children.map (fun c =>
      "    " ++ toString i ++ " --> " ++ toString c ++ "\n"))).flatten

/-- The dotted-arrow lines the spec prescribes: one line `    p -.-> c`
per weak edge, grouped by parent index. -/
def weakEdgeLines (dag : DAGModel) : List String :=
  ((List.range dag.metaNodes.toList.length).map (fun i =>
    (dag.metaNodes.toList.getD i emptyMeta).weakChildren.map (fun c =>
      "    " ++ toString i ++ " -.-> " ++ toString c ++ "\n"))).flatten

theorem enumFrom_map_getD {α β : Type} (f : Nat × α → β) (d : α) :
    ∀ (l : List α) (k : Nat),
      (List.enumFrom k l).map f =
        (List.range l.length).map (fun i => f (k + i, l.getD i d)) := by
  intro l
  induction l with
  | nil => intro k; rfl
  | cons a t ih =>
    intro k
    show f (k, a) :: (List.enumFrom (k + 1) t).map f = _
    rw [List.length_cons, List.range_succ_eq_map, List.map_cons, List.map_map]
    congr 1
    rw [ih (k + 1)]
    refine List.map_congr_left ?_
    intro i _
    show f (k + 1 + i, t.getD i d) = f (k + (i + 1), (a :: t).getD (i + 1) d)
    have h1 : k + 1 + i = k + (i + 1) := by omega
    rw [h1, List.getD_cons_succ]

theorem flatten_map_append_perm {α β : Type} (f g : α → List β) :
    ∀ l : List α,
      List.Perm ((l.map (fun x => f x ++ g x)).flatten)
        ((l.map f).flatten ++ (l.map g).flatten) := by
  intro l
  induction l with
  | nil => exact List.Perm.refl _
  | cons a t ih =>
    simp only [List.map_cons, List.flatten_cons]
    refine List.Perm.trans (List.Perm.append_left (f a ++ g a) ih) ?_
    have h3 : List.Perm ((g a ++ (t.map f).flatten) ++ (t.map g).flatten)
        (((t.map f).flatten ++ g a) ++ (t.map g).flatten) :=
      List.Perm.append_right _ List.perm_append_comm
    have h4 := List.Perm.append_left (f a) h3
    simpa [List.append_assoc] using h4

theorem writeAsMermaid_eq (dag : DAGModel) :
    WriteAsMermaid dag = "graph TB\n" ::
      (mermaidNodeLines dag ++
        ((List.range dag.metaNodes.toList.length).map (fun i =>
          (dag.metaNodes.toList.getD i emptyMeta).children.map (fun c =>
            "    " ++ toString i ++ " --> " ++ toString c ++ "\n")
          ++ (dag.metaNodes.toList.getD i emptyMeta).weakChildren.map (fun c =>
            "    " ++ toString i ++ " -.-> " ++ toString c ++ "\n"))).flatten) := by
  have hnode : dag.metaNodes.toList.enum.map
      (fun p => "    " ++ toString p.1 ++ "(" ++ p.2.name ++ ")\n") =
      mermaidNodeLines dag := by
    unfold mermaidNodeLines
    rw [show dag.metaNodes.toList.enum = List.enumFrom 0 dag.metaNodes.toList from rfl]
    rw [enumFrom_map_getD _ emptyMeta]
    refine List.map_congr_left ?_
    intro i _
    simp
  have hedge : dag.metaNodes.toList.enum.map (fun p =>
      p.2.children.map (fun c => "    " ++ toString p.1 ++ " --> " ++ toString c ++ "\n")
      ++ p.2.weakChildren.map (fun c =>
        "    " ++ toString p.1 ++ " -.-> " ++ toString c ++ "\n")) =
      (List.range dag.metaNodes.toList.length).map (fun i =>
        (dag.metaNodes.toList.getD i emptyMeta).children.map (fun c =>
          "    " ++ toString i ++ " --> " ++ toString c ++ "\n")
        ++ (dag.metaNodes.toList.getD i emptyMeta).weakChildren.map (fun c =>
          "    " ++ toString i ++ " -.-> " ++ toString c ++ "\n")) := by
    rw [show dag.metaNodes.toList.enum = List.enumFrom 0 dag.metaNodes.toList from rfl]
    rw [enumFrom_map_getD _ emptyMeta]
    refine List.map_congr_left ?_
    intro i _
    simp
  unfold WriteAsMermaid
  rw [hnode, hedge]
  rfl

/-- The README's three-node example: `node2` strongly depends on
`node1`, `node3` weakly depends on `node2`, and `node3` is the leaf
handed to `new_dag`. -/
def exDefs : List UserNode :=
  [{ name := "node1", deps := [], weakDeps := [] },
   { name := "node2", deps := [some 0], weakDeps := [] },
   { name := "node3", deps := [], weakDeps := [some 1] }]

/-- The DAG built from the README example: interning order is `node3`,
`node2`, `node1`, and `node1` is the only root. -/
def exDag : DAGModel :=
  { metaNodes := #[
      { name := "node3", children := [], weakChildren := [], depCnt := 1 },
      { name := "node2", children := [], weakChildren := [0], depCnt := 1 },
      { name := "node1", children := [1], weakChildren := [], depCnt := 0 }],
    rootNodes := [2] }

/-- Claim C9: every Mermaid serialization starts with the header line
`graph TB`, followed by one declaration line `    i(name)` per node in
metadata-index order, followed by the edge lines — a permutation of one
`    p --> c` line per strong edge and one `    p -.-> c` line per weak
edge (solid arrows for strong, dotted for weak); and on the README's
three-node example the output is the exact expected string. -/
theorem c9_mermaid_format :
    (∀ dag : DAGModel, ∃ edges : List String,
      WriteAsMermaid dag = "graph TB\n" :: (mermaidNodeLines dag ++ edges) ∧
      List.Perm edges (strongEdgeLines dag ++ weakEdgeLines dag)) ∧
    build exDefs [some 2] = Except.ok exDag ∧
    ToMermaid exDag =
      "graph TB\n    0(node3)\n    1(node2)\n    2(node1)\n    1 -.-> 0\n    2 --> 1\n" := by
  refine ⟨?_, ?_, ?_⟩
  · intro dag
    refine ⟨_, writeAsMermaid_eq dag, ?_⟩
    exact flatten_map_append_perm _ _ _
  · rfl
  · rfl

end EasyDag
